import Mathlib

/-!
Verification of `tinycss.decoding` — the byte-to-Unicode decoding module of the
tinycss CSS parser (`tinycss/decoding.py`).

The module determines the character encoding of a stylesheet given as raw bytes
(protocol metadata, BOM / `@charset` signature sniffing, linking and document
metadata, UTF-8 fallback) and decodes it.

Modelling conventions:
* Byte strings are `List Nat` (each element a byte value).
* Unicode text is `List Nat` (each element a code point), mirroring Python
  strings as sequences of code points.
* Python exceptions are explicit: computations that may raise return
  `Except PyError _`.
* Python's codec machinery (`bytes.decode(name)`) is an external primitive;
  it is modelled by `lookupCodec` / `codecDecode` below, covering the codecs
  and the name-normalization behavior that this module exercises
  (utf-8, utf-16-be/le, utf-32-be/le, ascii, latin-1).  An encoding name not
  in this registry models a name unknown to the primitive (`LookupError`).
-/

/-- Python exception outcomes relevant to `tinycss.decoding`:
`UnicodeDecodeError` (invalid bytes for a codec), `LookupError` (unknown
encoding name), `IndexError` (out-of-bounds string indexing). -/
inductive PyError
  | unicodeDecodeError
  | lookupError
  | indexError
deriving DecidableEq, Repr

/-- A Unicode scalar value: a code point encodable by the UTF codecs
(below `0x110000` and not a surrogate). -/
def IsScalar (c : Nat) : Prop := c < 0x110000 ∧ ¬(0xD800 ≤ c ∧ c < 0xE000)

instance (c : Nat) : Decidable (IsScalar c) := by unfold IsScalar; infer_instance

/-! ### UTF-8 codec (strict, as Python's `utf_8` decoder) -/

/-- Is `b` a UTF-8 continuation byte (`0x80..0xBF`)? -/
def isCont (b : Nat) : Bool := 0x80 ≤ b && b ≤ 0xBF

/-- Valid range of the second byte of a 3-byte UTF-8 sequence, given the lead
byte: excludes overlong forms (lead `0xE0`) and surrogates (lead `0xED`). -/
def cont2ok (b1 b2 : Nat) : Bool :=
  if b1 = 0xE0 then 0xA0 ≤ b2 && b2 ≤ 0xBF
  else if b1 = 0xED then 0x80 ≤ b2 && b2 ≤ 0x9F
  else isCont b2

/-- Valid range of the second byte of a 4-byte UTF-8 sequence, given the lead
byte: excludes overlong forms (lead `0xF0`) and values above `U+10FFFF`
(lead `0xF4`). -/
def cont3ok (b1 b2 : Nat) : Bool :=
  if b1 = 0xF0 then 0x90 ≤ b2 && b2 ≤ 0xBF
  else if b1 = 0xF4 then 0x80 ≤ b2 && b2 ≤ 0x8F
  else isCont b2

/-- Decode one UTF-8 encoded code point from the front of a byte list,
returning the code point and the remaining bytes; `none` on invalid input.
Strict: rejects overlong forms, surrogates, and values above `U+10FFFF`. -/
def utf8DecodeChar : List Nat → Option (Nat × List Nat)
  | [] => none
  | b1 :: rest =>
    if b1 < 0x80 then some (b1, rest)
    else if 0xC2 ≤ b1 && b1 ≤ 0xDF then
      match rest with
      | b2 :: rest2 =>
        if isCont b2 then some ((b1 - 0xC0) * 0x40 + (b2 - 0x80), rest2) else none
      | [] => none
    else if 0xE0 ≤ b1 && b1 ≤ 0xEF then
      match rest with
      | b2 :: b3 :: rest3 =>
        if cont2ok b1 b2 && isCont b3 then
          some ((b1 - 0xE0) * 0x1000 + (b2 - 0x80) * 0x40 + (b3 - 0x80), rest3)
        else none
      | _ => none
    else if 0xF0 ≤ b1 && b1 ≤ 0xF4 then
      match rest with
      | b2 :: b3 :: b4 :: rest4 =>
        if cont3ok b1 b2 && isCont b3 && isCont b4 then
          some ((b1 - 0xF0) * 0x40000 + (b2 - 0x80) * 0x1000 +
                (b3 - 0x80) * 0x40 + (b4 - 0x80), rest4)
        else none
      | _ => none
    else none

/-- Fuel-indexed UTF-8 decoding loop.  Each decoded code point consumes at
least one byte, so fuel equal to the byte count always suffices. -/
def utf8DecodeF : Nat → List Nat → Option (List Nat)
  | _, [] => some []
  | 0, _ :: _ => none
  | fuel + 1, l =>
    match utf8DecodeChar l with
    | some (c, rest) => (utf8DecodeF fuel rest).map (c :: ·)
    | none => none

/-- Strict UTF-8 decode of a byte list to code points (`none` models
`UnicodeDecodeError`). -/
def utf8Decode (bs : List Nat) : Option (List Nat) := utf8DecodeF bs.length bs

/-- UTF-8 encoding of one scalar code point. -/
def utf8EncodeChar (c : Nat) : List Nat :=
  if c < 0x80 then [c]
  else if c < 0x800 then [0xC0 + c / 0x40, 0x80 + c % 0x40]
  else if c < 0x10000 then
    [0xE0 + c / 0x1000, 0x80 + c / 0x40 % 0x40, 0x80 + c % 0x40]
  else
    [0xF0 + c / 0x40000, 0x80 + c / 0x1000 % 0x40, 0x80 + c / 0x40 % 0x40,
     0x80 + c % 0x40]

/-- Encode a text with a per-code-point byte encoder. -/
def encodeWith (f : Nat → List Nat) (t : List Nat) : List Nat := (t.map f).flatten

/-- UTF-8 encoding of a text. -/
def utf8Encode (t : List Nat) : List Nat := encodeWith utf8EncodeChar t

/-! ### UTF-16 codecs (strict, as Python's `utf_16_be` / `utf_16_le`) -/

/-- Combine two bytes into a 16-bit code unit (`be` selects byte order). -/
def utf16Unit (be : Bool) (b1 b2 : Nat) : Nat :=
  if be then b1 * 0x100 + b2 else b2 * 0x100 + b1

/-- Fuel-indexed strict UTF-16 decoding: pairs bytes into units, combines
surrogate pairs, rejects unpaired surrogates and truncated data. -/
def utf16DecodeF (be : Bool) : Nat → List Nat → Option (List Nat)
  | _, [] => some []
  | 0, _ :: _ => none
  | _ + 1, [_] => none
  | fuel + 1, b1 :: b2 :: rest =>
    let u := utf16Unit be b1 b2
    if u < 0xD800 || 0xE000 ≤ u then (utf16DecodeF be fuel rest).map (u :: ·)
    else if u < 0xDC00 then
      match rest with
      | b3 :: b4 :: rest2 =>
        let u2 := utf16Unit be b3 b4
        if 0xDC00 ≤ u2 && u2 < 0xE000 then
          (utf16DecodeF be fuel rest2).map
            ((0x10000 + (u - 0xD800) * 0x400 + (u2 - 0xDC00)) :: ·)
        else none
      | _ => none
    else none

/-- Strict UTF-16 decode (big-endian when `be`). -/
def utf16Decode (be : Bool) (bs : List Nat) : Option (List Nat) :=
  utf16DecodeF be bs.length bs

/-- UTF-16 encoding of one scalar code point (surrogate pair above `0xFFFF`). -/
def utf16EncodeChar (be : Bool) (c : Nat) : List Nat :=
  if c < 0x10000 then
    if be then [c / 0x100, c % 0x100] else [c % 0x100, c / 0x100]
  else
    let hi := 0xD800 + (c - 0x10000) / 0x400
    let lo := 0xDC00 + (c - 0x10000) % 0x400
    if be then [hi / 0x100, hi % 0x100, lo / 0x100, lo % 0x100]
    else [hi % 0x100, hi / 0x100, lo % 0x100, lo / 0x100]

/-- UTF-16 encoding of a text. -/
def utf16Encode (be : Bool) (t : List Nat) : List Nat :=
  encodeWith (utf16EncodeChar be) t

/-! ### UTF-32 codecs (strict, as Python's `utf_32_be` / `utf_32_le`) -/

/-- Fuel-indexed strict UTF-32 decoding: four bytes per code point, rejecting
surrogates, values above `U+10FFFF`, and truncated data. -/
def utf32DecodeF (be : Bool) : Nat → List Nat → Option (List Nat)
  | _, [] => some []
  | 0, _ :: _ => none
  | fuel + 1, b1 :: b2 :: b3 :: b4 :: rest =>
    let c := if be then ((b1 * 0x100 + b2) * 0x100 + b3) * 0x100 + b4
             else ((b4 * 0x100 + b3) * 0x100 + b2) * 0x100 + b1
    if c < 0x110000 && !(0xD800 ≤ c && c < 0xE000) then
      (utf32DecodeF be fuel rest).map (c :: ·)
    else none
  | _ + 1, _ => none

/-- Strict UTF-32 decode (big-endian when `be`). -/
def utf32Decode (be : Bool) (bs : List Nat) : Option (List Nat) :=
  utf32DecodeF be bs.length bs

/-- UTF-32 encoding of one scalar code point. -/
def utf32EncodeChar (be : Bool) (c : Nat) : List Nat :=
  if be then [c / 0x1000000, c / 0x10000 % 0x100, c / 0x100 % 0x100, c % 0x100]
  else [c % 0x100, c / 0x100 % 0x100, c / 0x10000 % 0x100, c / 0x1000000]

/-- UTF-32 encoding of a text. -/
def utf32Encode (be : Bool) (t : List Nat) : List Nat :=
  encodeWith (utf32EncodeChar be) t

/-! ### Codec registry — model of Python's decode-by-name primitive -/

/-- The codecs of Python's registry exercised by `tinycss.decoding`. -/
inductive Codec
  | utf_8 | utf_16_be | utf_16_le | utf_32_be | utf_32_le | ascii | latin_1
deriving DecidableEq, Repr

/-- Decode bytes under a codec; `none` models `UnicodeDecodeError`. -/
def codecDecode : Codec → List Nat → Option (List Nat)
  | .utf_8, bs => utf8Decode bs
  | .utf_16_be, bs => utf16Decode true bs
  | .utf_16_le, bs => utf16Decode false bs
  | .utf_32_be, bs => utf32Decode true bs
  | .utf_32_le, bs => utf32Decode false bs
  | .ascii, bs => if bs.all (· < 0x80) then some bs else none
  | .latin_1, bs => if bs.all (· < 0x100) then some bs else none

/-- ASCII lowercasing of a character (Python lowercases encoding names before
registry lookup; the names reaching the lookup here are ASCII). -/
def toLowerAscii (c : Char) : Char :=
  if 'A' ≤ c ∧ c ≤ 'Z' then Char.ofNat (c.toNat + 32) else c

/-- Characters kept by Python's `encodings.normalize_encoding`
(ASCII alphanumerics and the dot). -/
def isAlnumDot (c : Char) : Bool := c.isAlphanum || c = '.'

/-- Core of `encodings.normalize_encoding`: keep alphanumerics/dots,
collapse each internal run of other characters to one underscore
(`punct` = a run is pending, `started` = some character was emitted). -/
def normAux : List Char → Bool → Bool → List Char
  | [], _, _ => []
  | c :: cs, punct, started =>
    if isAlnumDot c then
      (if punct && started then ['_'] else []) ++ c :: normAux cs false true
    else normAux cs true started

/-- Encoding-name normalization performed by Python's codec lookup:
lowercase, then collapse non-alphanumeric runs to single underscores. -/
def normalize_encoding (s : String) : String :=
  String.mk (normAux (s.toList.map toLowerAscii) false false)

/-- Name lookup of Python's codec registry (module names and aliases),
restricted to the codecs modelled here.  `none` models `LookupError`. -/
def lookupCodec (s : String) : Option Codec :=
  let n := normalize_encoding s
  if n = "utf_8" ∨ n = "utf8" ∨ n = "u8" ∨ n = "utf" ∨ n = "cp65001" then
    some .utf_8
  else if n = "utf_16_be" ∨ n = "utf_16be" ∨ n = "unicodebigunmarked" then
    some .utf_16_be
  else if n = "utf_16_le" ∨ n = "utf_16le" ∨ n = "unicodelittleunmarked" then
    some .utf_16_le
  else if n = "utf_32_be" ∨ n = "utf_32be" then some .utf_32_be
  else if n = "utf_32_le" ∨ n = "utf_32le" then some .utf_32_le
  else if n = "ascii" ∨ n = "646" ∨ n = "us_ascii" then some .ascii
  else if n = "latin_1" ∨ n = "latin1" ∨ n = "iso_8859_1" ∨ n = "iso8859_1" ∨
          n = "8859" ∨ n = "cp819" ∨ n = "latin" ∨ n = "l1" then some .latin_1
  else none

/-- Python's `css_bytes.decode(encoding)`: registry lookup then strict decode,
raising `LookupError` for an unknown name and `UnicodeDecodeError` for
invalid bytes. -/
def pyDecode (encoding : String) (bs : List Nat) : Except PyError (List Nat) :=
  match lookupCodec encoding with
  | none => .error .lookupError
  | some c =>
    match codecDecode c bs with
    | some t => .ok t
    | none => .error .unicodeDecodeError

/-- Removal of one leading `U+FEFF` from a text, as performed after a
successful trial decode. -/
def bomStrip1 : List Nat → List Nat
  | [] => []
  | c :: r => if c = 0xFEFF then r else c :: r

/-- Embedding of `tinycss.decoding.try_encoding`.  The decode is wrapped in
`try/except (UnicodeDecodeError, LookupError)` — caught errors yield `none`
when `fallback` is true and propagate otherwise.  The subsequent BOM check
`css_unicode[0] == u+FEFF` sits outside that handler, so a successful
decode to the empty string raises `IndexError`. -/
def try_encoding (css_bytes : List Nat) (encoding : String) (fallback : Bool) :
    Except PyError (Option (List Nat)) :=
  match pyDecode encoding css_bytes with
  | .error e => if fallback then .ok none else .error e
  | .ok t =>
    match t with
    | [] => .error .indexError
    | c :: r => .ok (some (if c = 0xFEFF then r else c :: r))

/-! ### Signature table (`ENCODING_MAGIC_NUMBERS`) -/

/-- ASCII bytes of the literal `@charset "` that opens every `@charset`
signature. -/
def charsetQuoteCps : List Nat :=
  [0x40, 0x63, 0x68, 0x61, 0x72, 0x73, 0x65, 0x74, 0x20, 0x22]

/-- One byte of `@charset` text as it appears in an interleaved (UTF-16/32)
byte stream: `nb` zero bytes, the byte itself, `na` zero bytes. -/
def interleave (nb na b : Nat) : List Nat :=
  List.replicate nb 0 ++ b :: List.replicate na 0

/-- Interleaving of a whole ASCII byte list. -/
def interleaveAll (nb na : Nat) (bs : List Nat) : List Nat :=
  (bs.map (interleave nb na)).flatten

/-- Anchored literal-prefix matching: `some rest` when `l = p ++ rest`. -/
def stripPre : List Nat → List Nat → Option (List Nat)
  | [], l => some l
  | _ :: _, [] => none
  | a :: p, b :: l => if a = b then stripPre p l else none

/-- Consume exactly `n` zero bytes from the front of a list. -/
def stripZeros : Nat → List Nat → Option (List Nat)
  | 0, l => some l
  | _ + 1, [] => none
  | n + 1, b :: l => if b = 0 then stripZeros n l else none

/-- Consume one unit of the regex group `(0^nb [^\x22] 0^na)`: `nb` zeros, a
byte other than `0x22`, `na` zeros.  Returns the payload byte and the rest. -/
def consumeUnit (nb na : Nat) (l : List Nat) : Option (Nat × List Nat) :=
  match stripZeros nb l with
  | some (b :: l2) =>
    if b = 0x22 then none
    else
      match stripZeros na l2 with
      | some r => some (b, r)
      | none => none
  | _ => none

/-- The interleaved bytes of `";` that terminate a `@charset` signature. -/
def terminator (nb na : Nat) : List Nat := interleaveAll nb na [0x22, 0x3B]

/-- Fuel-indexed lazy matching of the capture group `((unit)*?) terminator`:
the shortest run of units after which the terminator bytes follow.  Returns
the raw captured bytes.  Each unit consumes at least one byte, so fuel equal
to the list length always suffices. -/
def matchGroupF (nb na : Nat) : Nat → List Nat → Option (List Nat)
  | fuel, l =>
    if (terminator nb na).isPrefixOf l then some []
    else
      match fuel, consumeUnit nb na l with
      | fuel2 + 1, some (b, r) =>
        (matchGroupF nb na fuel2 r).map (fun g => interleave nb na b ++ g)
      | _, _ => none

/-- Anchored matching of a full `@charset` signature pattern
`bom ++ interleaved "@charset \"" ++ group ++ terminator`, returning the raw
bytes of capture group 1. -/
def matchCharset (bom : List Nat) (nb na : Nat) (bs : List Nat) :
    Option (List Nat) :=
  match stripPre (bom ++ interleaveAll nb na charsetQuoteCps) bs with
  | some rest => matchGroupF nb na rest.length rest
  | none => none

/-- A signature pattern: either a `@charset` pattern with a BOM prefix and an
`(nb, na)` interleaving, or a bare literal byte prefix. -/
inductive Pattern
  | charsetPat (bom : List Nat) (nb na : Nat)
  | literalPat (bytes : List Nat)
deriving DecidableEq, Repr

/-- Anchored match of a pattern against the stylesheet bytes; `some group`
holds the raw bytes of capture group 1 (empty for literal patterns). -/
def matchPattern : Pattern → List Nat → Option (List Nat)
  | .charsetPat bom nb na, bs => matchCharset bom nb na bs
  | .literalPat p, bs => if p.isPrefixOf bs then some [] else none

/-- The `encoding` field of a table entry: either a fixed name (a string) or
`(slice, endianness)` for a name extracted from the capture group
(`Slice[start::step]` becomes the `start`/`step` fields). -/
inductive EncSpec
  | fixed (name : String)
  | declared (start step : Nat) (endianness : String)
deriving DecidableEq, Repr

/-- One entry of `ENCODING_MAGIC_NUMBERS`: `(bom_size, encoding, pattern)`. -/
structure MagicEntry where
  bom_size : Nat
  encoding : EncSpec
  pattern : Pattern
deriving DecidableEq, Repr

/-- Element selection for Python slicing with a positive step: `k` counts
down to the next selected element, and is reset to `step - 1` after each
selection. -/
def pySliceAux (step : Nat) : List Nat → Nat → List Nat
  | [], _ => []
  | b :: l, 0 => b :: pySliceAux step l (step - 1)
  | _ :: l, k + 1 => pySliceAux step l k

/-- Python slicing `l[start::step]` for `step ≥ 1`. -/
def pySlice (start step : Nat) (l : List Nat) : List Nat :=
  pySliceAux step l start

/-- Python's `bytes.decode('ascii', 'replace')`: bytes below `0x80` decode to
themselves, others become `U+FFFD`. -/
def asciiDecodeReplace (bs : List Nat) : String :=
  String.mk (bs.map fun b => if b < 0x80 then Char.ofNat b else Char.ofNat 0xFFFD)

/-- Python's `encoding.replace('-', '').replace('_', '').lower()` used for the
utf16/utf32 endianness-suffix check. -/
def stripDashUnderscore (s : String) : String :=
  String.mk ((s.toList.filter fun c => c ≠ '-' ∧ c ≠ '_').map toLowerAscii)

/-- Computation of the candidate encoding name for a matched declared entry:
slice the capture group, decode it as ASCII with replacement, and append the
entry's endianness suffix when the normalized name is `utf16` or `utf32`. -/
def resolveDeclared (start step : Nat) (endianness : String) (grp : List Nat) :
    String :=
  let enc := asciiDecodeReplace (pySlice start step grp)
  if stripDashUnderscore enc = "utf16" ∨ stripDashUnderscore enc = "utf32" then
    enc ++ endianness
  else enc

/-- Candidate encoding name of a matched entry (`has_at_charset` branches of
the loop body). -/
def encodingOf : EncSpec → List Nat → String
  | .fixed name, _ => name
  | .declared start step endianness, grp => resolveDeclared start step endianness grp

/-- `isinstance(encoding, tuple)` in the loop body. -/
def hasAtCharset : EncSpec → Bool
  | .fixed _ => false
  | .declared _ _ _ => true

/-- Embedding of `ENCODING_MAGIC_NUMBERS`, in source order (the commented-out
middle-endian and EBCDIC entries of the source are absent from the list the
code iterates, and likewise absent here). -/
def ENCODING_MAGIC_NUMBERS : List MagicEntry :=
  [ ⟨3, .declared 0 1 "", .charsetPat [0xEF, 0xBB, 0xBF] 0 0⟩,
    ⟨3, .fixed "UTF-8", .literalPat [0xEF, 0xBB, 0xBF]⟩,
    ⟨0, .declared 0 1 "", .charsetPat [] 0 0⟩,
    ⟨2, .declared 1 2 "-BE", .charsetPat [0xFE, 0xFF] 1 0⟩,
    ⟨0, .declared 1 2 "-BE", .charsetPat [] 1 0⟩,
    ⟨2, .declared 0 2 "-LE", .charsetPat [0xFF, 0xFE] 0 1⟩,
    ⟨0, .declared 0 2 "-LE", .charsetPat [] 0 1⟩,
    ⟨4, .declared 3 4 "-BE", .charsetPat [0x00, 0x00, 0xFE, 0xFF] 3 0⟩,
    ⟨0, .declared 3 4 "-BE", .charsetPat [] 3 0⟩,
    ⟨4, .declared 0 4 "-LE", .charsetPat [0xFF, 0xFE, 0x00, 0x00] 0 3⟩,
    ⟨0, .declared 0 4 "-LE", .charsetPat [] 0 3⟩,
    ⟨4, .fixed "UTF-32-BE", .literalPat [0x00, 0x00, 0xFE, 0xFF]⟩,
    ⟨4, .fixed "UTF-32-LE", .literalPat [0xFF, 0xFE, 0x00, 0x00]⟩,
    ⟨2, .fixed "UTF-16-BE", .literalPat [0xFE, 0xFF]⟩,
    ⟨2, .fixed "UTF-16-LE", .literalPat [0xFF, 0xFE]⟩ ]

/-! ### The resolver (`decode`) -/

/-- First pattern match in table order: the loop
`for bom_size, encoding, pattern in ...` up to its first `if match:`. -/
def findMatchOn : List MagicEntry → List Nat → Option (EncSpec × List Nat)
  | [], _ => none
  | e :: es, bs =>
    match matchPattern e.pattern bs with
    | some grp => some (e.encoding, grp)
    | none => findMatchOn es bs

/-- The acceptance test of the loop body:
`css_unicode and not (has_at_charset and not css_unicode.startswith('@charset "'))`.
Note the Python truthiness of the first conjunct: the empty string is falsy. -/
def acceptCond (spec : EncSpec) (t : List Nat) : Bool :=
  !t.isEmpty && !(hasAtCharset spec && !(charsetQuoteCps.isPrefixOf t))

/-- The sniffing tier over a given table: first pattern match, one trial
decode of the whole input with the entry's (fixed or extracted) encoding,
acceptance test; `ok none` means fall-through (`break` without `return`). -/
def sniffOn (table : List MagicEntry) (bs : List Nat) :
    Except PyError (Option (List Nat)) :=
  match findMatchOn table bs with
  | none => .ok none
  | some (spec, grp) =>
    match try_encoding bs (encodingOf spec grp) true with
    | .error e => .error e
    | .ok none => .ok none
    | .ok (some t) => if acceptCond spec t then .ok (some t) else .ok none

/-- A metadata-driven trial: `if encoding: css_unicode = try_encoding(...)`,
where a `none` or empty-string encoding is falsy and skipped. -/
def tryTruthy (bs : List Nat) (e : Option String) :
    Except PyError (Option (List Nat)) :=
  match e with
  | none => .ok none
  | some s => if s = "" then .ok none else try_encoding bs s true

/-- The linking/document tier followed by the UTF-8 fallback tier: try
`linking_encoding` then `document_encoding`, returning on the first success,
then `return try_encoding(css_bytes, 'utf8', fallback=False)`. -/
def metaFallback (bs : List Nat) (le de : Option String) :
    Except PyError (Option (List Nat)) :=
  match tryTruthy bs le with
  | .error e => .error e
  | .ok (some t) => .ok (some t)
  | .ok none =>
    match tryTruthy bs de with
    | .error e => .error e
    | .ok (some t) => .ok (some t)
    | .ok none => try_encoding bs "utf8" false

/-- Embedding of `tinycss.decoding.decode`: protocol tier, sniffing tier over
`ENCODING_MAGIC_NUMBERS`, linking/document tier, UTF-8 fallback.
`ok (some t)` is a returned text, `error e` a raised exception. -/
def decode (css_bytes : List Nat)
    (protocol_encoding linking_encoding document_encoding : Option String) :
    Except PyError (Option (List Nat)) :=
  match tryTruthy css_bytes protocol_encoding with
  | .error e => .error e
  | .ok (some t) => .ok (some t)
  | .ok none =>
    match sniffOn ENCODING_MAGIC_NUMBERS css_bytes with
    | .error e => .error e
    | .ok (some t) => .ok (some t)
    | .ok none => metaFallback css_bytes linking_encoding document_encoding

/-! ### Decidability of result comparison -/

instance {ε α : Type} [DecidableEq ε] [DecidableEq α] : DecidableEq (Except ε α) := fun a b =>
  match a, b with
  | .error e, .error e2 =>
    if h : e = e2 then .isTrue (by rw [h]) else .isFalse (fun hc => h (by cases hc; rfl))
  | .ok x, .ok y =>
    if h : x = y then .isTrue (by rw [h]) else .isFalse (fun hc => h (by cases hc; rfl))
  | .error _, .ok _ => .isFalse (fun hc => by cases hc)
  | .ok _, .error _ => .isFalse (fun hc => by cases hc)

/-! ### Helper lemmas: anchored prefix matching -/

theorem stripPre_append (p r : List Nat) : stripPre p (p ++ r) = some r := by
  induction p with
  | nil => rfl
  | cons a p ih => simp [stripPre, ih]

theorem stripPre_eq_some {p l r : List Nat} (h : stripPre p l = some r) :
    l = p ++ r := by
  induction p generalizing l with
  | nil => simpa [stripPre] using h
  | cons a p ih =>
    match l with
    | [] => simp [stripPre] at h
    | b :: l2 =>
      by_cases hab : a = b
      · subst hab
        simp only [stripPre, if_pos rfl] at h
        simpa using ih h
      · simp [stripPre, hab] at h

theorem isPrefixOf_append_self (p r : List Nat) : p.isPrefixOf (p ++ r) = true := by
  induction p with
  | nil => cases r <;> rfl
  | cons a p ih => simp [List.isPrefixOf, ih]

theorem stripZeros_replicate (n : Nat) (r : List Nat) :
    stripZeros n (List.replicate n 0 ++ r) = some r := by
  induction n with
  | zero => rfl
  | succ n ih => simpa [List.replicate, stripZeros] using ih

theorem consumeUnit_interleave {b : Nat} (nb na : Nat) (hb : b ≠ 0x22)
    (r : List Nat) : consumeUnit nb na (interleave nb na b ++ r) = some (b, r) := by
  simp [consumeUnit, interleave, stripZeros_replicate, hb]

theorem consumeUnit_length {nb na : Nat} {l r : List Nat} {b : Nat}
    (h : consumeUnit nb na l = some (b, r)) : r.length < l.length := by
  have hz : ∀ n (l2 r2 : List Nat), stripZeros n l2 = some r2 →
      r2.length ≤ l2.length := by
    intro n
    induction n with
    | zero => intro l2 r2 h2; simp [stripZeros] at h2; simp [h2]
    | succ n ih =>
      intro l2 r2 h2
      match l2 with
      | [] => simp [stripZeros] at h2
      | c :: l3 =>
        by_cases hc : c = 0
        · simp only [stripZeros, if_pos hc] at h2
          have := ih l3 r2 h2
          simp; omega
        · simp [stripZeros, hc] at h2
  unfold consumeUnit at h
  match h2 : stripZeros nb l with
  | none => rw [h2] at h; simp at h
  | some [] => rw [h2] at h; simp at h
  | some (c :: l2) =>
    rw [h2] at h
    by_cases hc : c = 0x22
    · simp [hc] at h
    · simp only [if_neg hc] at h
      match h3 : stripZeros na l2 with
      | none => rw [h3] at h; simp at h
      | some r2 =>
        rw [h3] at h
        simp at h
        obtain ⟨hb, hr⟩ := h
        subst hr
        have h4 := hz nb l (c :: l2) h2
        have h5 := hz na l2 r2 h3
        simp at h4
        omega

/-! ### Helper lemmas: interleavings and the lazy capture group -/

theorem interleaveAll_nil (nb na : Nat) : interleaveAll nb na [] = [] := rfl

theorem interleaveAll_cons (nb na b : Nat) (bs : List Nat) :
    interleaveAll nb na (b :: bs) =
      interleave nb na b ++ interleaveAll nb na bs := by
  simp [interleaveAll]

theorem interleaveAll_append (nb na : Nat) (l m : List Nat) :
    interleaveAll nb na (l ++ m) =
      interleaveAll nb na l ++ interleaveAll nb na m := by
  simp [interleaveAll]

theorem interleave_length (nb na b : Nat) :
    (interleave nb na b).length = nb + na + 1 := by
  simp [interleave]; omega


theorem interleaveAll_length (nb na : Nat) (l : List Nat) :
    (interleaveAll nb na l).length = l.length * (nb + na + 1) := by
  induction l with
  | nil => simp [interleaveAll_nil]
  | cons b bs ih =>
    rw [interleaveAll_cons]
    simp [interleave_length, ih]
    ring

theorem zeros_ne_not_prefixOf (nb : Nat) {x y : Nat} (h : x ≠ y)
    (l m : List Nat) :
    (List.replicate nb 0 ++ x :: l).isPrefixOf (List.replicate nb 0 ++ y :: m)
      = false := by
  induction nb with
  | zero =>
    simp only [List.replicate, List.nil_append, List.isPrefixOf]
    simp [h]
  | succ n ih => simpa [List.replicate, List.isPrefixOf] using ih

theorem terminator_cons_form (nb na : Nat) :
    terminator nb na =
      List.replicate nb 0 ++ 0x22 ::
        (List.replicate na 0 ++ interleave nb na 0x3B) := by
  simp [terminator, interleaveAll, interleave]

theorem terminator_not_prefixOf_unit (nb na : Nat) {b : Nat} (hb : b ≠ 0x22)
    (r : List Nat) :
    (terminator nb na).isPrefixOf (interleave nb na b ++ r) = false := by
  have h1 : interleave nb na b ++ r =
      List.replicate nb 0 ++ b :: (List.replicate na 0 ++ r) := by
    simp [interleave]
  rw [terminator_cons_form, h1]
  exact zeros_ne_not_prefixOf nb (by omega) _ _

theorem matchGroupF_term {nb na : Nat} (fuel : Nat) {l : List Nat}
    (h : (terminator nb na).isPrefixOf l = true) :
    matchGroupF nb na fuel l = some [] := by
  unfold matchGroupF
  rw [h]
  rfl

theorem matchGroupF_name (nb na : Nat) (name : List Nat) (fuel : Nat)
    (r : List Nat) (hname : ∀ b ∈ name, b ≠ 0x22)
    (hfuel : name.length ≤ fuel) :
    matchGroupF nb na fuel
        (interleaveAll nb na name ++ (terminator nb na ++ r)) =
      some (interleaveAll nb na name) := by
  induction name generalizing fuel with
  | nil =>
    rw [interleaveAll_nil, List.nil_append]
    exact matchGroupF_term fuel (isPrefixOf_append_self _ _)
  | cons b bs ih =>
    have hb : b ≠ 0x22 := hname b (by simp)
    match fuel with
    | 0 => simp at hfuel
    | fuel2 + 1 =>
      rw [interleaveAll_cons, List.append_assoc]
      unfold matchGroupF
      rw [terminator_not_prefixOf_unit nb na hb _]
      rw [consumeUnit_interleave nb na hb _]
      simp only [Bool.false_eq_true, if_false]
      rw [ih fuel2 (fun x hx => hname x (List.mem_cons_of_mem _ hx))
        (by simp at hfuel; omega)]
      simp [interleaveAll_cons, List.append_assoc]

theorem matchCharset_encode (bom : List Nat) (nb na : Nat) (name r : List Nat)
    (hname : ∀ b ∈ name, b ≠ 0x22) :
    matchCharset bom nb na
        (bom ++ interleaveAll nb na charsetQuoteCps ++
          (interleaveAll nb na name ++ (terminator nb na ++ r))) =
      some (interleaveAll nb na name) := by
  unfold matchCharset
  rw [stripPre_append]
  apply matchGroupF_name nb na name _ r hname
  have h2 : name.length ≤ name.length * (nb + na + 1) := by
    calc name.length = name.length * 1 := by omega
    _ ≤ name.length * (nb + na + 1) := by
        exact Nat.mul_le_mul_left _ (by omega)
  simp [List.length_append, interleaveAll_length]
  omega

/-! ### Helper lemmas: slicing an interleaved capture group -/

theorem pySliceAux_skip_zeros (step : Nat) (j : Nat) :
    ∀ (k : Nat) (l : List Nat),
      pySliceAux step (List.replicate j 0 ++ l) (j + k) = pySliceAux step l k := by
  induction j with
  | zero => intro k l; simp
  | succ n ih =>
    intro k l
    have h : n + 1 + k = (n + k) + 1 := by omega
    rw [h]
    simpa [List.replicate, pySliceAux] using ih k l

theorem pySliceAux_skip_zeros0 (step : Nat) (j : Nat) (l : List Nat) :
    pySliceAux step (List.replicate j 0 ++ l) j = pySliceAux step l 0 := by
  simpa using pySliceAux_skip_zeros step j 0 l

theorem pySlice_interleaveAll (nb na : Nat) (name : List Nat) :
    pySlice nb (nb + na + 1) (interleaveAll nb na name) = name := by
  unfold pySlice
  induction name with
  | nil => simp [interleaveAll_nil, pySliceAux]
  | cons b bs ih =>
    rw [interleaveAll_cons, interleave, List.append_assoc,
      pySliceAux_skip_zeros0]
    simp only [pySliceAux, List.cons_append, List.append_eq]
    have h1 : nb + na + 1 - 1 = na + nb := by omega
    rw [h1, pySliceAux_skip_zeros (nb + na + 1) na nb _]
    rw [ih]

/-! ### Helper lemmas: codec round trips -/

theorem utf8EncodeChar_ne_nil (c : Nat) : utf8EncodeChar c ≠ [] := by
  unfold utf8EncodeChar
  split_ifs <;> simp

theorem encodeWith_cons (f : Nat → List Nat) (c : Nat) (t : List Nat) :
    encodeWith f (c :: t) = f c ++ encodeWith f t := by
  simp [encodeWith]


theorem utf8DecodeChar_encode {c : Nat} (hc : IsScalar c) (r : List Nat) :
    utf8DecodeChar (utf8EncodeChar c ++ r) = some (c, r) := by
  obtain ⟨hlt, hsur⟩ := hc
  unfold utf8EncodeChar
  by_cases h1 : c < 0x80
  · simp only [if_pos h1, List.cons_append, List.nil_append]
    simp only [utf8DecodeChar]
    rw [if_pos h1]
  · by_cases h2 : c < 0x800
    · simp only [if_neg h1, if_pos h2, List.cons_append, List.nil_append]
      simp only [utf8DecodeChar]
      rw [if_neg (by omega)]
      rw [if_pos (show (decide (0xC2 ≤ 0xC0 + c / 0x40) &&
        decide (0xC0 + c / 0x40 ≤ 0xDF)) = true by simp; omega)]
      rw [if_pos (show isCont (0x80 + c % 0x40) = true by simp [isCont]; omega)]
      have hv : (0xC0 + c / 0x40 - 0xC0) * 0x40 + (0x80 + c % 0x40 - 0x80) = c := by
        omega
      rw [hv]
    · by_cases h3 : c < 0x10000
      · simp only [if_neg h1, if_neg h2, if_pos h3, List.cons_append,
          List.nil_append]
        simp only [utf8DecodeChar]
        rw [if_neg (by omega)]
        rw [if_neg (by simp; omega)]
        rw [if_pos (by simp; omega)]
        rw [if_pos (show (cont2ok (0xE0 + c / 0x1000) (0x80 + c / 0x40 % 0x40) &&
            isCont (0x80 + c % 0x40)) = true by
          simp only [Bool.and_eq_true]
          refine ⟨?_, by simp [isCont]; omega⟩
          unfold cont2ok
          split_ifs with he hd
          · simp; omega
          · simp only [isCont] at *; simp; omega
          · simp only [isCont]; simp; omega)]
        have hv : (0xE0 + c / 0x1000 - 0xE0) * 0x1000 +
            (0x80 + c / 0x40 % 0x40 - 0x80) * 0x40 + (0x80 + c % 0x40 - 0x80)
            = c := by omega
        rw [hv]
      · simp only [if_neg h1, if_neg h2, if_neg h3, List.cons_append,
          List.nil_append]
        simp only [utf8DecodeChar]
        rw [if_neg (by omega)]
        rw [if_neg (by simp; omega)]
        rw [if_neg (by simp; omega)]
        rw [if_pos (by simp; omega)]
        rw [if_pos (show (cont3ok (0xF0 + c / 0x40000) (0x80 + c / 0x1000 % 0x40) &&
            isCont (0x80 + c / 0x40 % 0x40) && isCont (0x80 + c % 0x40)) = true by
          simp only [Bool.and_eq_true]
          refine ⟨⟨?_, by simp [isCont]; omega⟩, by simp [isCont]; omega⟩
          unfold cont3ok
          split_ifs with hf0 hf4
          · simp; omega
          · simp; omega
          · simp only [isCont]; simp; omega)]
        have hv : (0xF0 + c / 0x40000 - 0xF0) * 0x40000 +
            (0x80 + c / 0x1000 % 0x40 - 0x80) * 0x1000 +
            (0x80 + c / 0x40 % 0x40 - 0x80) * 0x40 + (0x80 + c % 0x40 - 0x80)
            = c := by omega
        rw [hv]

theorem utf8DecodeF_cons (fuel : Nat) (x : Nat) (l : List Nat) :
    utf8DecodeF (fuel + 1) (x :: l) =
      match utf8DecodeChar (x :: l) with
      | some (c, rest) => (utf8DecodeF fuel rest).map (c :: ·)
      | none => none := rfl

theorem utf8DecodeF_encode (t : List Nat) : ∀ (fuel : Nat),
    t.length ≤ fuel → (∀ c ∈ t, IsScalar c) →
    utf8DecodeF fuel (utf8Encode t) = some t := by
  induction t with
  | nil => intro fuel _ _; cases fuel <;> rfl
  | cons c t ih =>
    intro fuel hfuel hval
    match fuel with
    | 0 => simp at hfuel
    | fuel2 + 1 =>
      have hcv : IsScalar c := hval c (by simp)
      have henc : utf8Encode (c :: t) = utf8EncodeChar c ++ utf8Encode t :=
        encodeWith_cons _ _ _
      rw [henc]
      match hch : utf8EncodeChar c with
      | [] => exact absurd hch (utf8EncodeChar_ne_nil c)
      | b :: bs =>
        rw [List.cons_append, utf8DecodeF_cons]
        have hdec : utf8DecodeChar (b :: (bs ++ utf8Encode t))
            = some (c, utf8Encode t) := by
          rw [← List.cons_append, ← hch]
          exact utf8DecodeChar_encode hcv _
        rw [hdec]
        show (utf8DecodeF fuel2 (utf8Encode t)).map (c :: ·) = some (c :: t)
        rw [ih fuel2 (by simp at hfuel; omega)
          (fun x hx => hval x (List.mem_cons_of_mem _ hx))]
        rfl

theorem utf8Encode_length_ge (t : List Nat) : t.length ≤ (utf8Encode t).length := by
  induction t with
  | nil => simp [utf8Encode, encodeWith]
  | cons c t ih =>
    rw [show utf8Encode (c :: t) = utf8EncodeChar c ++ utf8Encode t from
      encodeWith_cons _ _ _]
    have : 1 ≤ (utf8EncodeChar c).length := by
      unfold utf8EncodeChar; split_ifs <;> simp
    simp only [List.length_append, List.length_cons]
    omega

theorem utf8Decode_encode (t : List Nat) (hval : ∀ c ∈ t, IsScalar c) :
    utf8Decode (utf8Encode t) = some t :=
  utf8DecodeF_encode t _ (utf8Encode_length_ge t) hval

theorem utf8Decode_bom_encode (t : List Nat) (hval : ∀ c ∈ t, IsScalar c) :
    utf8Decode (0xEF :: 0xBB :: 0xBF :: utf8Encode t) = some (0xFEFF :: t) := by
  unfold utf8Decode
  rw [show (0xEF :: 0xBB :: 0xBF :: utf8Encode t).length
    = ((utf8Encode t).length + 2) + 1 by simp]
  rw [utf8DecodeF_cons]
  have hdec : utf8DecodeChar (0xEF :: 0xBB :: 0xBF :: utf8Encode t)
      = some (0xFEFF, utf8Encode t) := rfl
  rw [hdec]
  show (utf8DecodeF ((utf8Encode t).length + 2) (utf8Encode t)).map (0xFEFF :: ·)
    = some (0xFEFF :: t)
  rw [utf8DecodeF_encode t _ (by have := utf8Encode_length_ge t; omega) hval]
  rfl

theorem utf16DecodeF_cons (be : Bool) (fuel b1 b2 : Nat) (l : List Nat) :
    utf16DecodeF be (fuel + 1) (b1 :: b2 :: l) =
      (if utf16Unit be b1 b2 < 0xD800 || 0xE000 ≤ utf16Unit be b1 b2 then
        (utf16DecodeF be fuel l).map (utf16Unit be b1 b2 :: ·)
      else if utf16Unit be b1 b2 < 0xDC00 then
        match l with
        | b3 :: b4 :: rest2 =>
          if 0xDC00 ≤ utf16Unit be b3 b4 && utf16Unit be b3 b4 < 0xE000 then
            (utf16DecodeF be fuel rest2).map
              ((0x10000 + (utf16Unit be b1 b2 - 0xD800) * 0x400 +
                (utf16Unit be b3 b4 - 0xDC00)) :: ·)
          else none
        | _ => none
      else none) := rfl

theorem utf16DecodeF_cons4 (be : Bool) (fuel b1 b2 b3 b4 : Nat) (l : List Nat) :
    utf16DecodeF be (fuel + 1) (b1 :: b2 :: b3 :: b4 :: l) =
      (if utf16Unit be b1 b2 < 0xD800 || 0xE000 ≤ utf16Unit be b1 b2 then
        (utf16DecodeF be fuel (b3 :: b4 :: l)).map (utf16Unit be b1 b2 :: ·)
      else if utf16Unit be b1 b2 < 0xDC00 then
        if 0xDC00 ≤ utf16Unit be b3 b4 && utf16Unit be b3 b4 < 0xE000 then
          (utf16DecodeF be fuel l).map
            ((0x10000 + (utf16Unit be b1 b2 - 0xD800) * 0x400 +
              (utf16Unit be b3 b4 - 0xDC00)) :: ·)
        else none
      else none) := rfl

theorem utf16DecodeF_encode (be : Bool) (t : List Nat) : ∀ (fuel : Nat),
    t.length ≤ fuel → (∀ c ∈ t, IsScalar c) →
    utf16DecodeF be fuel (utf16Encode be t) = some t := by
  induction t with
  | nil => intro fuel _ _; cases fuel <;> rfl
  | cons c t ih =>
    intro fuel hfuel hval
    match fuel with
    | 0 => simp at hfuel
    | fuel2 + 1 =>
      obtain ⟨hlt, hsur⟩ := hval c (by simp)
      have hih := ih fuel2 (by simp at hfuel; omega)
        (fun x hx => hval x (List.mem_cons_of_mem _ hx))
      rw [show utf16Encode be (c :: t) = utf16EncodeChar be c ++ utf16Encode be t
        from encodeWith_cons _ _ _]
      by_cases hsm : c < 0x10000
      · cases be
        · rw [show utf16EncodeChar false c = [c % 0x100, c / 0x100] from by
            simp [utf16EncodeChar, hsm]]
          rw [List.cons_append, List.cons_append, List.nil_append,
            utf16DecodeF_cons]
          have hu : utf16Unit false (c % 0x100) (c / 0x100) = c := by
            simp only [utf16Unit, Bool.false_eq_true, if_false]
            omega
          rw [hu, if_pos (by simp; omega), hih]
          rfl
        · rw [show utf16EncodeChar true c = [c / 0x100, c % 0x100] from by
            simp [utf16EncodeChar, hsm]]
          rw [List.cons_append, List.cons_append, List.nil_append,
            utf16DecodeF_cons]
          have hu : utf16Unit true (c / 0x100) (c % 0x100) = c := by
            simp only [utf16Unit, if_pos]
            omega
          rw [hu, if_pos (by simp; omega), hih]
          rfl
      · cases be
        · rw [show utf16EncodeChar false c =
              [(0xD800 + (c - 0x10000) / 0x400) % 0x100,
               (0xD800 + (c - 0x10000) / 0x400) / 0x100,
               (0xDC00 + (c - 0x10000) % 0x400) % 0x100,
               (0xDC00 + (c - 0x10000) % 0x400) / 0x100] from by
            simp [utf16EncodeChar, hsm]]
          simp only [List.cons_append, List.nil_append]
          rw [utf16DecodeF_cons4]
          have hu1 : utf16Unit false ((0xD800 + (c - 0x10000) / 0x400) % 0x100)
              ((0xD800 + (c - 0x10000) / 0x400) / 0x100)
              = 0xD800 + (c - 0x10000) / 0x400 := by
            simp only [utf16Unit, Bool.false_eq_true, if_false]
            omega
          have hu2 : utf16Unit false ((0xDC00 + (c - 0x10000) % 0x400) % 0x100)
              ((0xDC00 + (c - 0x10000) % 0x400) / 0x100)
              = 0xDC00 + (c - 0x10000) % 0x400 := by
            simp only [utf16Unit, Bool.false_eq_true, if_false]
            omega
          rw [hu1, hu2]
          rw [if_neg (by simp; omega), if_pos (by omega),
            if_pos (by simp; omega)]
          have hv : 0x10000 + (0xD800 + (c - 0x10000) / 0x400 - 0xD800) * 0x400 +
              (0xDC00 + (c - 0x10000) % 0x400 - 0xDC00) = c := by omega
          rw [hv, hih]
          rfl
        · rw [show utf16EncodeChar true c =
              [(0xD800 + (c - 0x10000) / 0x400) / 0x100,
               (0xD800 + (c - 0x10000) / 0x400) % 0x100,
               (0xDC00 + (c - 0x10000) % 0x400) / 0x100,
               (0xDC00 + (c - 0x10000) % 0x400) % 0x100] from by
            simp [utf16EncodeChar, hsm]]
          simp only [List.cons_append, List.nil_append]
          rw [utf16DecodeF_cons4]
          have hu1 : utf16Unit true ((0xD800 + (c - 0x10000) / 0x400) / 0x100)
              ((0xD800 + (c - 0x10000) / 0x400) % 0x100)
              = 0xD800 + (c - 0x10000) / 0x400 := by
            simp only [utf16Unit, if_pos]
            omega
          have hu2 : utf16Unit true ((0xDC00 + (c - 0x10000) % 0x400) / 0x100)
              ((0xDC00 + (c - 0x10000) % 0x400) % 0x100)
              = 0xDC00 + (c - 0x10000) % 0x400 := by
            simp only [utf16Unit, if_pos]
            omega
          rw [hu1, hu2]
          rw [if_neg (by simp; omega), if_pos (by omega),
            if_pos (by simp; omega)]
          have hv : 0x10000 + (0xD800 + (c - 0x10000) / 0x400 - 0xD800) * 0x400 +
              (0xDC00 + (c - 0x10000) % 0x400 - 0xDC00) = c := by omega
          rw [hv, hih]
          rfl

theorem utf32DecodeF_cons (be : Bool) (fuel b1 b2 b3 b4 : Nat) (l : List Nat) :
    utf32DecodeF be (fuel + 1) (b1 :: b2 :: b3 :: b4 :: l) =
      (if (if be then ((b1 * 0x100 + b2) * 0x100 + b3) * 0x100 + b4
           else ((b4 * 0x100 + b3) * 0x100 + b2) * 0x100 + b1) < 0x110000 &&
          !(0xD800 ≤ (if be then ((b1 * 0x100 + b2) * 0x100 + b3) * 0x100 + b4
             else ((b4 * 0x100 + b3) * 0x100 + b2) * 0x100 + b1) &&
            (if be then ((b1 * 0x100 + b2) * 0x100 + b3) * 0x100 + b4
             else ((b4 * 0x100 + b3) * 0x100 + b2) * 0x100 + b1) < 0xE000) then
        (utf32DecodeF be fuel l).map
          ((if be then ((b1 * 0x100 + b2) * 0x100 + b3) * 0x100 + b4
            else ((b4 * 0x100 + b3) * 0x100 + b2) * 0x100 + b1) :: ·)
      else none) := rfl

theorem utf32DecodeF_encode (be : Bool) (t : List Nat) : ∀ (fuel : Nat),
    t.length ≤ fuel → (∀ c ∈ t, IsScalar c) →
    utf32DecodeF be fuel (utf32Encode be t) = some t := by
  induction t with
  | nil => intro fuel _ _; cases fuel <;> rfl
  | cons c t ih =>
    intro fuel hfuel hval
    match fuel with
    | 0 => simp at hfuel
    | fuel2 + 1 =>
      obtain ⟨hlt, hsur⟩ := hval c (by simp)
      have hih := ih fuel2 (by simp at hfuel; omega)
        (fun x hx => hval x (List.mem_cons_of_mem _ hx))
      rw [show utf32Encode be (c :: t) = utf32EncodeChar be c ++ utf32Encode be t
        from encodeWith_cons _ _ _]
      cases be
      · rw [show utf32EncodeChar false c =
            [c % 0x100, c / 0x100 % 0x100, c / 0x10000 % 0x100, c / 0x1000000]
          from by simp [utf32EncodeChar]]
        simp only [List.cons_append, List.nil_append]
        rw [utf32DecodeF_cons]
        have hv : ((c / 0x1000000 * 0x100 + c / 0x10000 % 0x100) * 0x100 +
            c / 0x100 % 0x100) * 0x100 + c % 0x100 = c := by omega
        simp only [Bool.false_eq_true, if_false] at *
        rw [hv, if_pos (by simp; omega), hih]
        rfl
      · rw [show utf32EncodeChar true c =
            [c / 0x1000000, c / 0x10000 % 0x100, c / 0x100 % 0x100, c % 0x100]
          from by simp [utf32EncodeChar]]
        simp only [List.cons_append, List.nil_append]
        rw [utf32DecodeF_cons]
        have hv : ((c / 0x1000000 * 0x100 + c / 0x10000 % 0x100) * 0x100 +
            c / 0x100 % 0x100) * 0x100 + c % 0x100 = c := by omega
        simp only [if_pos] at *
        rw [hv, if_pos (by simp; omega), hih]
        rfl

theorem utf16Encode_length_ge (be : Bool) (t : List Nat) :
    t.length ≤ (utf16Encode be t).length := by
  induction t with
  | nil => simp [utf16Encode, encodeWith]
  | cons c t ih =>
    rw [show utf16Encode be (c :: t) = utf16EncodeChar be c ++ utf16Encode be t
      from encodeWith_cons _ _ _]
    have : 1 ≤ (utf16EncodeChar be c).length := by
      unfold utf16EncodeChar; split_ifs <;> simp
    simp only [List.length_append, List.length_cons]
    omega

theorem utf32Encode_length_ge (be : Bool) (t : List Nat) :
    t.length ≤ (utf32Encode be t).length := by
  induction t with
  | nil => simp [utf32Encode, encodeWith]
  | cons c t ih =>
    rw [show utf32Encode be (c :: t) = utf32EncodeChar be c ++ utf32Encode be t
      from encodeWith_cons _ _ _]
    have : 1 ≤ (utf32EncodeChar be c).length := by
      unfold utf32EncodeChar; split_ifs <;> simp
    simp only [List.length_append, List.length_cons]
    omega

theorem utf16Decode_encode (be : Bool) (t : List Nat)
    (hval : ∀ c ∈ t, IsScalar c) :
    utf16Decode be (utf16Encode be t) = some t :=
  utf16DecodeF_encode be t _ (utf16Encode_length_ge be t) hval

theorem utf32Decode_encode (be : Bool) (t : List Nat)
    (hval : ∀ c ∈ t, IsScalar c) :
    utf32Decode be (utf32Encode be t) = some t :=
  utf32DecodeF_encode be t _ (utf32Encode_length_ge be t) hval

/-- The BOM byte sequence of each UTF-16 byte order. -/
def utf16Bom (be : Bool) : List Nat := if be then [0xFE, 0xFF] else [0xFF, 0xFE]

/-- The BOM byte sequence of each UTF-32 byte order. -/
def utf32Bom (be : Bool) : List Nat :=
  if be then [0x00, 0x00, 0xFE, 0xFF] else [0xFF, 0xFE, 0x00, 0x00]

theorem utf16Decode_bom_encode (be : Bool) (t : List Nat)
    (hval : ∀ c ∈ t, IsScalar c) :
    utf16Decode be (utf16Bom be ++ utf16Encode be t) = some (0xFEFF :: t) := by
  have hlen := utf16Encode_length_ge be t
  cases be
  · show utf16Decode false (0xFF :: 0xFE :: utf16Encode false t) = _
    unfold utf16Decode
    rw [show (0xFF :: 0xFE :: utf16Encode false t).length
      = ((utf16Encode false t).length + 1) + 1 by simp]
    rw [utf16DecodeF_cons]
    rw [show utf16Unit false 0xFF 0xFE = 0xFEFF from rfl]
    rw [if_pos (by simp)]
    rw [utf16DecodeF_encode false t _ (by omega) hval]
    rfl
  · show utf16Decode true (0xFE :: 0xFF :: utf16Encode true t) = _
    unfold utf16Decode
    rw [show (0xFE :: 0xFF :: utf16Encode true t).length
      = ((utf16Encode true t).length + 1) + 1 by simp]
    rw [utf16DecodeF_cons]
    rw [show utf16Unit true 0xFE 0xFF = 0xFEFF from rfl]
    rw [if_pos (by simp)]
    rw [utf16DecodeF_encode true t _ (by omega) hval]
    rfl

theorem utf32Decode_bom_encode (be : Bool) (t : List Nat)
    (hval : ∀ c ∈ t, IsScalar c) :
    utf32Decode be (utf32Bom be ++ utf32Encode be t) = some (0xFEFF :: t) := by
  have hlen := utf32Encode_length_ge be t
  cases be
  · show utf32Decode false (0xFF :: 0xFE :: 0x00 :: 0x00 :: utf32Encode false t) = _
    unfold utf32Decode
    rw [show (0xFF :: 0xFE :: 0x00 :: 0x00 :: utf32Encode false t).length
      = ((utf32Encode false t).length + 3) + 1 by simp]
    rw [utf32DecodeF_cons]
    rw [if_pos (by simp)]
    rw [utf32DecodeF_encode false t _ (by omega) hval]
    rfl
  · show utf32Decode true (0x00 :: 0x00 :: 0xFE :: 0xFF :: utf32Encode true t) = _
    unfold utf32Decode
    rw [show (0x00 :: 0x00 :: 0xFE :: 0xFF :: utf32Encode true t).length
      = ((utf32Encode true t).length + 3) + 1 by simp]
    rw [utf32DecodeF_cons]
    rw [if_pos (by simp)]
    rw [utf32DecodeF_encode true t _ (by omega) hval]
    rfl

/-! ### Helper lemmas: encoders on ASCII text are interleavings -/

theorem interleaveAll_zero (l : List Nat) : interleaveAll 0 0 l = l := by
  induction l with
  | nil => rfl
  | cons b bs ih => rw [interleaveAll_cons, ih]; rfl

theorem utf8Encode_ascii (l : List Nat) (h : ∀ c ∈ l, c < 0x80) :
    utf8Encode l = l := by
  induction l with
  | nil => rfl
  | cons c t ih =>
    rw [show utf8Encode (c :: t) = utf8EncodeChar c ++ utf8Encode t from
      encodeWith_cons _ _ _]
    rw [show utf8EncodeChar c = [c] from by
      simp [utf8EncodeChar, h c (by simp)]]
    rw [ih (fun x hx => h x (List.mem_cons_of_mem _ hx))]
    rfl

theorem utf16Encode_ascii (be : Bool) (l : List Nat) (h : ∀ c ∈ l, c < 0x80) :
    utf16Encode be l =
      interleaveAll (if be then 1 else 0) (if be then 0 else 1) l := by
  induction l with
  | nil => cases be <;> rfl
  | cons c t ih =>
    have hc := h c (by simp)
    rw [show utf16Encode be (c :: t) = utf16EncodeChar be c ++ utf16Encode be t
      from encodeWith_cons _ _ _]
    rw [interleaveAll_cons, ih (fun x hx => h x (List.mem_cons_of_mem _ hx))]
    cases be
    · rw [show utf16EncodeChar false c = [c % 0x100, c / 0x100] from by
        simp [utf16EncodeChar]; omega]
      have h1 : c % 0x100 = c := by omega
      have h2 : c / 0x100 = 0 := by omega
      rw [h1, h2]
      rfl
    · rw [show utf16EncodeChar true c = [c / 0x100, c % 0x100] from by
        simp [utf16EncodeChar]; omega]
      have h1 : c % 0x100 = c := by omega
      have h2 : c / 0x100 = 0 := by omega
      rw [h1, h2]
      rfl

theorem utf32Encode_ascii (be : Bool) (l : List Nat) (h : ∀ c ∈ l, c < 0x80) :
    utf32Encode be l =
      interleaveAll (if be then 3 else 0) (if be then 0 else 3) l := by
  induction l with
  | nil => cases be <;> rfl
  | cons c t ih =>
    have hc := h c (by simp)
    rw [show utf32Encode be (c :: t) = utf32EncodeChar be c ++ utf32Encode be t
      from encodeWith_cons _ _ _]
    rw [interleaveAll_cons, ih (fun x hx => h x (List.mem_cons_of_mem _ hx))]
    have h1 : c % 0x100 = c := by omega
    have h2 : c / 0x100 % 0x100 = 0 := by omega
    have h3 : c / 0x10000 % 0x100 = 0 := by omega
    have h4 : c / 0x1000000 = 0 := by omega
    cases be
    · rw [show utf32EncodeChar false c =
        [c % 0x100, c / 0x100 % 0x100, c / 0x10000 % 0x100, c / 0x1000000]
        from by simp [utf32EncodeChar]]
      rw [h1, h2, h3, h4]
      rfl
    · rw [show utf32EncodeChar true c =
        [c / 0x1000000, c / 0x10000 % 0x100, c / 0x100 % 0x100, c % 0x100]
        from by simp [utf32EncodeChar]]
      rw [h1, h2, h3, h4]
      rfl

/-! ### Helper lemmas: the resolver tiers -/

theorem encodeWith_append (f : Nat → List Nat) (l m : List Nat) :
    encodeWith f (l ++ m) = encodeWith f l ++ encodeWith f m := by
  simp [encodeWith]

theorem findMatchOn_cons_none {e : MagicEntry} {es : List MagicEntry}
    {bs : List Nat} (h : matchPattern e.pattern bs = none) :
    findMatchOn (e :: es) bs = findMatchOn es bs := by
  simp [findMatchOn, h]

theorem findMatchOn_cons_some {e : MagicEntry} {es : List MagicEntry}
    {bs : List Nat} {grp : List Nat}
    (h : matchPattern e.pattern bs = some grp) :
    findMatchOn (e :: es) bs = some (e.encoding, grp) := by
  simp [findMatchOn, h]

theorem try_encoding_some {bs : List Nat} {s : String} {c : Codec} {x : Nat}
    {r : List Nat} (hl : lookupCodec s = some c)
    (hd : codecDecode c bs = some (x :: r)) (hx : x ≠ 0xFEFF) (fb : Bool) :
    try_encoding bs s fb = .ok (some (x :: r)) := by
  unfold try_encoding pyDecode
  simp only [hl, hd]
  rw [if_neg hx]

theorem try_encoding_some_of_head {bs : List Nat} {s : String} {c : Codec}
    {t : List Nat} (hl : lookupCodec s = some c)
    (hd : codecDecode c bs = some t) (hne : t ≠ [])
    (hx : t.head? ≠ some 0xFEFF) (fb : Bool) :
    try_encoding bs s fb = .ok (some t) := by
  unfold try_encoding pyDecode
  simp only [hl, hd]
  match t with
  | [] => exact absurd rfl hne
  | x :: r =>
    simp only [List.head?] at hx
    show Except.ok (some (if x = 0xFEFF then r else x :: r)) = _
    rw [if_neg (by intro h; exact hx (by rw [h]))]

theorem try_encoding_bom {bs : List Nat} {s : String} {c : Codec}
    {r : List Nat} (hl : lookupCodec s = some c)
    (hd : codecDecode c bs = some (0xFEFF :: r)) (fb : Bool) :
    try_encoding bs s fb = .ok (some r) := by
  unfold try_encoding pyDecode
  simp only [hl, hd]
  simp

theorem try_encoding_empty {bs : List Nat} {s : String} {c : Codec}
    (hl : lookupCodec s = some c) (hd : codecDecode c bs = some []) (fb : Bool) :
    try_encoding bs s fb = .error .indexError := by
  unfold try_encoding pyDecode
  simp only [hl, hd]

theorem try_encoding_decode_fail {bs : List Nat} {s : String} {c : Codec}
    (hl : lookupCodec s = some c) (hd : codecDecode c bs = none) :
    try_encoding bs s true = .ok none := by
  unfold try_encoding pyDecode
  simp only [hl, hd]
  rfl

theorem try_encoding_lookup_fail {bs : List Nat} {s : String}
    (hl : lookupCodec s = none) :
    try_encoding bs s true = .ok none := by
  unfold try_encoding pyDecode
  simp only [hl]
  rfl

theorem decode_sniff_some {bs t : List Nat} {le de : Option String}
    (h : sniffOn ENCODING_MAGIC_NUMBERS bs = .ok (some t)) :
    decode bs none le de = .ok (some t) := by
  simp only [decode, tryTruthy]
  rw [h]

/-! ### The supported `@charset` signature forms (for the round-trip property) -/

/-- ASCII bytes of the declared names used by the signature forms. -/
def name8 : List Nat := [0x75, 0x74, 0x66, 0x2D, 0x38]

/-- ASCII bytes of `UTF-16`. -/
def name16 : List Nat := [0x55, 0x54, 0x46, 0x2D, 0x31, 0x36]

/-- ASCII bytes of `UTF-32`. -/
def name32 : List Nat := [0x55, 0x54, 0x46, 0x2D, 0x33, 0x32]

/-- A supported `@charset` signature form: the ASCII/UTF-8 form or a UTF-16 /
UTF-32 form of either byte order, each with or without its BOM. -/
inductive SigForm
  | f8 (bom : Bool)
  | f16 (be bom : Bool)
  | f32 (be bom : Bool)

/-- The declared encoding name of each form (`utf-8`, `UTF-16`, `UTF-32`),
an encoding agreeing with the form's own byte encoding. -/
def formName : SigForm → List Nat
  | .f8 _ => name8
  | .f16 _ _ => name16
  | .f32 _ _ => name32

/-- Code points of the `@charset "NAME";` preamble of a form. -/
def formDeclCps (f : SigForm) : List Nat :=
  charsetQuoteCps ++ formName f ++ [0x22, 0x3B]

/-- Byte encoding of a text under a signature form: the form's BOM (when
present) followed by the text encoded in the form's encoding. -/
def formEncode : SigForm → List Nat → List Nat
  | .f8 bom, t => (if bom then [0xEF, 0xBB, 0xBF] else []) ++ utf8Encode t
  | .f16 be bom, t => (if bom then utf16Bom be else []) ++ utf16Encode be t
  | .f32 be bom, t => (if bom then utf32Bom be else []) ++ utf32Encode be t


theorem c5_case_f8_nobom (rest : List Nat) (hval : ∀ c ∈ rest, IsScalar c) :
    decode (utf8Encode ((charsetQuoteCps ++ name8 ++ [0x22, 0x3B]) ++ rest)) none none none = .ok (some ((charsetQuoteCps ++ name8 ++ [0x22, 0x3B]) ++ rest)) := by
  have hpascii : ∀ c ∈ charsetQuoteCps ++ name8 ++ [0x22, 0x3B], c < 0x80 := by decide
  have hvalt : ∀ c ∈ (charsetQuoteCps ++ name8 ++ [0x22, 0x3B]) ++ rest, IsScalar c := by
    intro c hc
    rcases List.mem_append.mp hc with h | h
    · have := hpascii c h
      exact ⟨by omega, by omega⟩
    · exact hval c h
  have hshape : utf8Encode ((charsetQuoteCps ++ name8 ++ [0x22, 0x3B]) ++ rest) =
      [] ++ interleaveAll 0 0 charsetQuoteCps ++
      (interleaveAll 0 0 name8 ++ (terminator 0 0 ++ utf8Encode rest)) := by
    rw [show utf8Encode ((charsetQuoteCps ++ name8 ++ [0x22, 0x3B]) ++ rest) = utf8Encode (charsetQuoteCps ++ name8 ++ [0x22, 0x3B]) ++ utf8Encode rest from encodeWith_append _ _ _]
    rw [show utf8Encode (charsetQuoteCps ++ name8 ++ [0x22, 0x3B]) = interleaveAll 0 0 (charsetQuoteCps ++ name8 ++ [0x22, 0x3B]) from by rw [utf8Encode_ascii _ hpascii, interleaveAll_zero]]
    rw [interleaveAll_append, interleaveAll_append]
    simp [List.append_assoc, terminator]
  have hcons : utf8Encode ((charsetQuoteCps ++ name8 ++ [0x22, 0x3B]) ++ rest) =
      0x40 :: 0x63 :: 0x68 :: 0x61 :: ([0x72, 0x73, 0x65, 0x74, 0x20, 0x22] ++ (interleaveAll 0 0 name8 ++ (terminator 0 0 ++ utf8Encode rest))) := by
    rw [hshape]; rfl
  have hfm : findMatchOn ENCODING_MAGIC_NUMBERS (utf8Encode ((charsetQuoteCps ++ name8 ++ [0x22, 0x3B]) ++ rest)) =
      some (EncSpec.declared 0 1 "", interleaveAll 0 0 name8) := by
    show findMatchOn (_ :: _ :: _ :: _) _ = _
    rw [findMatchOn_cons_none (by
      rw [hcons]
      simp [matchPattern, matchCharset, stripPre, interleaveAll, interleave,
        charsetQuoteCps])]
    rw [findMatchOn_cons_none (by
      rw [hcons]
      simp [matchPattern, List.isPrefixOf])]
    rw [findMatchOn_cons_some (by
      rw [hshape]
      exact matchCharset_encode [] 0 0 name8 _ (by decide))]
  have henc : encodingOf (EncSpec.declared 0 1 "") (interleaveAll 0 0 name8) = "utf-8" := by
    show encodingOf (EncSpec.declared 0 (0 + 0 + 1) "") (interleaveAll 0 0 name8) = _
    simp only [encodingOf, resolveDeclared, pySlice_interleaveAll]
    decide
  have hdec : codecDecode Codec.utf_8 (utf8Encode ((charsetQuoteCps ++ name8 ++ [0x22, 0x3B]) ++ rest)) = some ((charsetQuoteCps ++ name8 ++ [0x22, 0x3B]) ++ rest) := by
    show utf8Decode _ = _
    exact utf8Decode_encode _ hvalt
  have htry : try_encoding (utf8Encode ((charsetQuoteCps ++ name8 ++ [0x22, 0x3B]) ++ rest)) "utf-8" true
      = .ok (some ((charsetQuoteCps ++ name8 ++ [0x22, 0x3B]) ++ rest)) := by
    apply try_encoding_some_of_head (by decide) hdec
    · simp [charsetQuoteCps]
    · simp [charsetQuoteCps]
  have hpref : charsetQuoteCps.isPrefixOf ((charsetQuoteCps ++ name8 ++ [0x22, 0x3B]) ++ rest) = true := by
    rw [List.append_assoc, List.append_assoc]
    exact isPrefixOf_append_self _ _
  have hacc : acceptCond (EncSpec.declared 0 1 "") ((charsetQuoteCps ++ name8 ++ [0x22, 0x3B]) ++ rest) = true := by
    simp [acceptCond, hasAtCharset, hpref, charsetQuoteCps]
  have hsniff : sniffOn ENCODING_MAGIC_NUMBERS (utf8Encode ((charsetQuoteCps ++ name8 ++ [0x22, 0x3B]) ++ rest)) =
      .ok (some ((charsetQuoteCps ++ name8 ++ [0x22, 0x3B]) ++ rest)) := by
    unfold sniffOn
    rw [hfm]
    simp only [henc, htry, hacc]
    simp
  exact decode_sniff_some hsniff


theorem c5_case_f8_bom (rest : List Nat) (hval : ∀ c ∈ rest, IsScalar c) :
    decode ([0xEF, 0xBB, 0xBF] ++ utf8Encode ((charsetQuoteCps ++ name8 ++ [0x22, 0x3B]) ++ rest)) none none none = .ok (some ((charsetQuoteCps ++ name8 ++ [0x22, 0x3B]) ++ rest)) := by
  have hpascii : ∀ c ∈ charsetQuoteCps ++ name8 ++ [0x22, 0x3B], c < 0x80 := by decide
  have hvalt : ∀ c ∈ (charsetQuoteCps ++ name8 ++ [0x22, 0x3B]) ++ rest, IsScalar c := by
    intro c hc
    rcases List.mem_append.mp hc with h | h
    · have := hpascii c h
      exact ⟨by omega, by omega⟩
    · exact hval c h
  have hshape : [0xEF, 0xBB, 0xBF] ++ utf8Encode ((charsetQuoteCps ++ name8 ++ [0x22, 0x3B]) ++ rest) =
      [0xEF, 0xBB, 0xBF] ++ interleaveAll 0 0 charsetQuoteCps ++
      (interleaveAll 0 0 name8 ++ (terminator 0 0 ++ utf8Encode rest)) := by
    rw [show utf8Encode ((charsetQuoteCps ++ name8 ++ [0x22, 0x3B]) ++ rest) = utf8Encode (charsetQuoteCps ++ name8 ++ [0x22, 0x3B]) ++ utf8Encode rest from encodeWith_append _ _ _]
    rw [show utf8Encode (charsetQuoteCps ++ name8 ++ [0x22, 0x3B]) = interleaveAll 0 0 (charsetQuoteCps ++ name8 ++ [0x22, 0x3B]) from by rw [utf8Encode_ascii _ hpascii, interleaveAll_zero]]
    rw [interleaveAll_append, interleaveAll_append]
    simp [List.append_assoc, terminator]
  have hfm : findMatchOn ENCODING_MAGIC_NUMBERS ([0xEF, 0xBB, 0xBF] ++ utf8Encode ((charsetQuoteCps ++ name8 ++ [0x22, 0x3B]) ++ rest)) =
      some (EncSpec.declared 0 1 "", interleaveAll 0 0 name8) := by
    show findMatchOn (_ :: _) _ = _

    rw [findMatchOn_cons_some (by
      rw [hshape]
      exact matchCharset_encode [0xEF, 0xBB, 0xBF] 0 0 name8 _ (by decide))]
  have henc : encodingOf (EncSpec.declared 0 1 "") (interleaveAll 0 0 name8) = "utf-8" := by
    show encodingOf (EncSpec.declared 0 (0 + 0 + 1) "") (interleaveAll 0 0 name8) = _
    simp only [encodingOf, resolveDeclared, pySlice_interleaveAll]
    decide
  have hdec : codecDecode Codec.utf_8 ([0xEF, 0xBB, 0xBF] ++ utf8Encode ((charsetQuoteCps ++ name8 ++ [0x22, 0x3B]) ++ rest)) = some (0xFEFF :: ((charsetQuoteCps ++ name8 ++ [0x22, 0x3B]) ++ rest)) := by
    show utf8Decode _ = _
    exact utf8Decode_bom_encode _ hvalt
  have htry : try_encoding ([0xEF, 0xBB, 0xBF] ++ utf8Encode ((charsetQuoteCps ++ name8 ++ [0x22, 0x3B]) ++ rest)) "utf-8" true
      = .ok (some ((charsetQuoteCps ++ name8 ++ [0x22, 0x3B]) ++ rest)) := by
    exact try_encoding_bom (by decide) hdec true
  have hpref : charsetQuoteCps.isPrefixOf ((charsetQuoteCps ++ name8 ++ [0x22, 0x3B]) ++ rest) = true := by
    rw [List.append_assoc, List.append_assoc]
    exact isPrefixOf_append_self _ _
  have hacc : acceptCond (EncSpec.declared 0 1 "") ((charsetQuoteCps ++ name8 ++ [0x22, 0x3B]) ++ rest) = true := by
    simp [acceptCond, hasAtCharset, hpref, charsetQuoteCps]
  have hsniff : sniffOn ENCODING_MAGIC_NUMBERS ([0xEF, 0xBB, 0xBF] ++ utf8Encode ((charsetQuoteCps ++ name8 ++ [0x22, 0x3B]) ++ rest)) =
      .ok (some ((charsetQuoteCps ++ name8 ++ [0x22, 0x3B]) ++ rest)) := by
    unfold sniffOn
    rw [hfm]
    simp only [henc, htry, hacc]
    simp
  exact decode_sniff_some hsniff


theorem c5_case_f16be_bom (rest : List Nat) (hval : ∀ c ∈ rest, IsScalar c) :
    decode (utf16Bom true ++ utf16Encode true ((charsetQuoteCps ++ name16 ++ [0x22, 0x3B]) ++ rest)) none none none = .ok (some ((charsetQuoteCps ++ name16 ++ [0x22, 0x3B]) ++ rest)) := by
  have hpascii : ∀ c ∈ charsetQuoteCps ++ name16 ++ [0x22, 0x3B], c < 0x80 := by decide
  have hvalt : ∀ c ∈ (charsetQuoteCps ++ name16 ++ [0x22, 0x3B]) ++ rest, IsScalar c := by
    intro c hc
    rcases List.mem_append.mp hc with h | h
    · have := hpascii c h
      exact ⟨by omega, by omega⟩
    · exact hval c h
  have hshape : utf16Bom true ++ utf16Encode true ((charsetQuoteCps ++ name16 ++ [0x22, 0x3B]) ++ rest) =
      [0xFE, 0xFF] ++ interleaveAll 1 0 charsetQuoteCps ++
      (interleaveAll 1 0 name16 ++ (terminator 1 0 ++ utf16Encode true rest)) := by
    rw [show utf16Encode true ((charsetQuoteCps ++ name16 ++ [0x22, 0x3B]) ++ rest) = utf16Encode true (charsetQuoteCps ++ name16 ++ [0x22, 0x3B]) ++ utf16Encode true rest from encodeWith_append _ _ _]
    rw [show utf16Encode true (charsetQuoteCps ++ name16 ++ [0x22, 0x3B]) = interleaveAll 1 0 (charsetQuoteCps ++ name16 ++ [0x22, 0x3B]) from by simpa using utf16Encode_ascii true _ hpascii]
    rw [interleaveAll_append, interleaveAll_append]
    simp [List.append_assoc, terminator, utf16Bom]
  have hcons : utf16Bom true ++ utf16Encode true ((charsetQuoteCps ++ name16 ++ [0x22, 0x3B]) ++ rest) =
      0xFE :: 0xFF :: 0x00 :: 0x40 :: (interleaveAll 1 0 [0x63, 0x68, 0x61, 0x72, 0x73, 0x65, 0x74, 0x20, 0x22] ++ (interleaveAll 1 0 name16 ++ (terminator 1 0 ++ utf16Encode true rest))) := by
    rw [hshape]; rfl
  have hfm : findMatchOn ENCODING_MAGIC_NUMBERS (utf16Bom true ++ utf16Encode true ((charsetQuoteCps ++ name16 ++ [0x22, 0x3B]) ++ rest)) =
      some (EncSpec.declared 1 2 "-BE", interleaveAll 1 0 name16) := by
    show findMatchOn (_ :: _ :: _ :: _ :: _) _ = _
    rw [findMatchOn_cons_none (by
      rw [hcons]
      simp [matchPattern, matchCharset, stripPre, interleaveAll, interleave,
        charsetQuoteCps])]
    rw [findMatchOn_cons_none (by
      rw [hcons]
      simp [matchPattern, List.isPrefixOf])]
    rw [findMatchOn_cons_none (by
      rw [hcons]
      simp [matchPattern, matchCharset, stripPre, interleaveAll, interleave,
        charsetQuoteCps])]
    rw [findMatchOn_cons_some (by
      rw [hshape]
      exact matchCharset_encode [0xFE, 0xFF] 1 0 name16 _ (by decide))]
  have henc : encodingOf (EncSpec.declared 1 2 "-BE") (interleaveAll 1 0 name16) = "UTF-16-BE" := by
    show encodingOf (EncSpec.declared 1 (1 + 0 + 1) "-BE") (interleaveAll 1 0 name16) = _
    simp only [encodingOf, resolveDeclared, pySlice_interleaveAll]
    decide
  have hdec : codecDecode Codec.utf_16_be (utf16Bom true ++ utf16Encode true ((charsetQuoteCps ++ name16 ++ [0x22, 0x3B]) ++ rest)) = some (0xFEFF :: ((charsetQuoteCps ++ name16 ++ [0x22, 0x3B]) ++ rest)) := by
    show utf16Decode true _ = _
    exact utf16Decode_bom_encode true _ hvalt
  have htry : try_encoding (utf16Bom true ++ utf16Encode true ((charsetQuoteCps ++ name16 ++ [0x22, 0x3B]) ++ rest)) "UTF-16-BE" true
      = .ok (some ((charsetQuoteCps ++ name16 ++ [0x22, 0x3B]) ++ rest)) := by
    exact try_encoding_bom (by decide) hdec true
  have hpref : charsetQuoteCps.isPrefixOf ((charsetQuoteCps ++ name16 ++ [0x22, 0x3B]) ++ rest) = true := by
    rw [List.append_assoc, List.append_assoc]
    exact isPrefixOf_append_self _ _
  have hacc : acceptCond (EncSpec.declared 1 2 "-BE") ((charsetQuoteCps ++ name16 ++ [0x22, 0x3B]) ++ rest) = true := by
    simp [acceptCond, hasAtCharset, hpref, charsetQuoteCps]
  have hsniff : sniffOn ENCODING_MAGIC_NUMBERS (utf16Bom true ++ utf16Encode true ((charsetQuoteCps ++ name16 ++ [0x22, 0x3B]) ++ rest)) =
      .ok (some ((charsetQuoteCps ++ name16 ++ [0x22, 0x3B]) ++ rest)) := by
    unfold sniffOn
    rw [hfm]
    simp only [henc, htry, hacc]
    simp
  exact decode_sniff_some hsniff


theorem c5_case_f16be_nobom (rest : List Nat) (hval : ∀ c ∈ rest, IsScalar c) :
    decode (utf16Encode true ((charsetQuoteCps ++ name16 ++ [0x22, 0x3B]) ++ rest)) none none none = .ok (some ((charsetQuoteCps ++ name16 ++ [0x22, 0x3B]) ++ rest)) := by
  have hpascii : ∀ c ∈ charsetQuoteCps ++ name16 ++ [0x22, 0x3B], c < 0x80 := by decide
  have hvalt : ∀ c ∈ (charsetQuoteCps ++ name16 ++ [0x22, 0x3B]) ++ rest, IsScalar c := by
    intro c hc
    rcases List.mem_append.mp hc with h | h
    · have := hpascii c h
      exact ⟨by omega, by omega⟩
    · exact hval c h
  have hshape : utf16Encode true ((charsetQuoteCps ++ name16 ++ [0x22, 0x3B]) ++ rest) =
      [] ++ interleaveAll 1 0 charsetQuoteCps ++
      (interleaveAll 1 0 name16 ++ (terminator 1 0 ++ utf16Encode true rest)) := by
    rw [show utf16Encode true ((charsetQuoteCps ++ name16 ++ [0x22, 0x3B]) ++ rest) = utf16Encode true (charsetQuoteCps ++ name16 ++ [0x22, 0x3B]) ++ utf16Encode true rest from encodeWith_append _ _ _]
    rw [show utf16Encode true (charsetQuoteCps ++ name16 ++ [0x22, 0x3B]) = interleaveAll 1 0 (charsetQuoteCps ++ name16 ++ [0x22, 0x3B]) from by simpa using utf16Encode_ascii true _ hpascii]
    rw [interleaveAll_append, interleaveAll_append]
    simp [List.append_assoc, terminator]
  have hcons : utf16Encode true ((charsetQuoteCps ++ name16 ++ [0x22, 0x3B]) ++ rest) =
      0x00 :: 0x40 :: 0x00 :: 0x63 :: (interleaveAll 1 0 [0x68, 0x61, 0x72, 0x73, 0x65, 0x74, 0x20, 0x22] ++ (interleaveAll 1 0 name16 ++ (terminator 1 0 ++ utf16Encode true rest))) := by
    rw [hshape]; rfl
  have hfm : findMatchOn ENCODING_MAGIC_NUMBERS (utf16Encode true ((charsetQuoteCps ++ name16 ++ [0x22, 0x3B]) ++ rest)) =
      some (EncSpec.declared 1 2 "-BE", interleaveAll 1 0 name16) := by
    show findMatchOn (_ :: _ :: _ :: _ :: _ :: _) _ = _
    rw [findMatchOn_cons_none (by
      rw [hcons]
      simp [matchPattern, matchCharset, stripPre, interleaveAll, interleave,
        charsetQuoteCps])]
    rw [findMatchOn_cons_none (by
      rw [hcons]
      simp [matchPattern, List.isPrefixOf])]
    rw [findMatchOn_cons_none (by
      rw [hcons]
      simp [matchPattern, matchCharset, stripPre, interleaveAll, interleave,
        charsetQuoteCps])]
    rw [findMatchOn_cons_none (by
      rw [hcons]
      simp [matchPattern, matchCharset, stripPre, interleaveAll, interleave,
        charsetQuoteCps])]
    rw [findMatchOn_cons_some (by
      rw [hshape]
      exact matchCharset_encode [] 1 0 name16 _ (by decide))]
  have henc : encodingOf (EncSpec.declared 1 2 "-BE") (interleaveAll 1 0 name16) = "UTF-16-BE" := by
    show encodingOf (EncSpec.declared 1 (1 + 0 + 1) "-BE") (interleaveAll 1 0 name16) = _
    simp only [encodingOf, resolveDeclared, pySlice_interleaveAll]
    decide
  have hdec : codecDecode Codec.utf_16_be (utf16Encode true ((charsetQuoteCps ++ name16 ++ [0x22, 0x3B]) ++ rest)) = some ((charsetQuoteCps ++ name16 ++ [0x22, 0x3B]) ++ rest) := by
    show utf16Decode true _ = _
    exact utf16Decode_encode true _ hvalt
  have htry : try_encoding (utf16Encode true ((charsetQuoteCps ++ name16 ++ [0x22, 0x3B]) ++ rest)) "UTF-16-BE" true
      = .ok (some ((charsetQuoteCps ++ name16 ++ [0x22, 0x3B]) ++ rest)) := by
    apply try_encoding_some_of_head (by decide) hdec
    · simp [charsetQuoteCps]
    · simp [charsetQuoteCps]
  have hpref : charsetQuoteCps.isPrefixOf ((charsetQuoteCps ++ name16 ++ [0x22, 0x3B]) ++ rest) = true := by
    rw [List.append_assoc, List.append_assoc]
    exact isPrefixOf_append_self _ _
  have hacc : acceptCond (EncSpec.declared 1 2 "-BE") ((charsetQuoteCps ++ name16 ++ [0x22, 0x3B]) ++ rest) = true := by
    simp [acceptCond, hasAtCharset, hpref, charsetQuoteCps]
  have hsniff : sniffOn ENCODING_MAGIC_NUMBERS (utf16Encode true ((charsetQuoteCps ++ name16 ++ [0x22, 0x3B]) ++ rest)) =
      .ok (some ((charsetQuoteCps ++ name16 ++ [0x22, 0x3B]) ++ rest)) := by
    unfold sniffOn
    rw [hfm]
    simp only [henc, htry, hacc]
    simp
  exact decode_sniff_some hsniff


theorem c5_case_f16le_bom (rest : List Nat) (hval : ∀ c ∈ rest, IsScalar c) :
    decode (utf16Bom false ++ utf16Encode false ((charsetQuoteCps ++ name16 ++ [0x22, 0x3B]) ++ rest)) none none none = .ok (some ((charsetQuoteCps ++ name16 ++ [0x22, 0x3B]) ++ rest)) := by
  have hpascii : ∀ c ∈ charsetQuoteCps ++ name16 ++ [0x22, 0x3B], c < 0x80 := by decide
  have hvalt : ∀ c ∈ (charsetQuoteCps ++ name16 ++ [0x22, 0x3B]) ++ rest, IsScalar c := by
    intro c hc
    rcases List.mem_append.mp hc with h | h
    · have := hpascii c h
      exact ⟨by omega, by omega⟩
    · exact hval c h
  have hshape : utf16Bom false ++ utf16Encode false ((charsetQuoteCps ++ name16 ++ [0x22, 0x3B]) ++ rest) =
      [0xFF, 0xFE] ++ interleaveAll 0 1 charsetQuoteCps ++
      (interleaveAll 0 1 name16 ++ (terminator 0 1 ++ utf16Encode false rest)) := by
    rw [show utf16Encode false ((charsetQuoteCps ++ name16 ++ [0x22, 0x3B]) ++ rest) = utf16Encode false (charsetQuoteCps ++ name16 ++ [0x22, 0x3B]) ++ utf16Encode false rest from encodeWith_append _ _ _]
    rw [show utf16Encode false (charsetQuoteCps ++ name16 ++ [0x22, 0x3B]) = interleaveAll 0 1 (charsetQuoteCps ++ name16 ++ [0x22, 0x3B]) from by simpa using utf16Encode_ascii false _ hpascii]
    rw [interleaveAll_append, interleaveAll_append]
    simp [List.append_assoc, terminator, utf16Bom]
  have hcons : utf16Bom false ++ utf16Encode false ((charsetQuoteCps ++ name16 ++ [0x22, 0x3B]) ++ rest) =
      0xFF :: 0xFE :: 0x40 :: 0x00 :: (interleaveAll 0 1 [0x63, 0x68, 0x61, 0x72, 0x73, 0x65, 0x74, 0x20, 0x22] ++ (interleaveAll 0 1 name16 ++ (terminator 0 1 ++ utf16Encode false rest))) := by
    rw [hshape]; rfl
  have hfm : findMatchOn ENCODING_MAGIC_NUMBERS (utf16Bom false ++ utf16Encode false ((charsetQuoteCps ++ name16 ++ [0x22, 0x3B]) ++ rest)) =
      some (EncSpec.declared 0 2 "-LE", interleaveAll 0 1 name16) := by
    show findMatchOn (_ :: _ :: _ :: _ :: _ :: _ :: _) _ = _
    rw [findMatchOn_cons_none (by
      rw [hcons]
      simp [matchPattern, matchCharset, stripPre, interleaveAll, interleave,
        charsetQuoteCps])]
    rw [findMatchOn_cons_none (by
      rw [hcons]
      simp [matchPattern, List.isPrefixOf])]
    rw [findMatchOn_cons_none (by
      rw [hcons]
      simp [matchPattern, matchCharset, stripPre, interleaveAll, interleave,
        charsetQuoteCps])]
    rw [findMatchOn_cons_none (by
      rw [hcons]
      simp [matchPattern, matchCharset, stripPre, interleaveAll, interleave,
        charsetQuoteCps])]
    rw [findMatchOn_cons_none (by
      rw [hcons]
      simp [matchPattern, matchCharset, stripPre, interleaveAll, interleave,
        charsetQuoteCps])]
    rw [findMatchOn_cons_some (by
      rw [hshape]
      exact matchCharset_encode [0xFF, 0xFE] 0 1 name16 _ (by decide))]
  have henc : encodingOf (EncSpec.declared 0 2 "-LE") (interleaveAll 0 1 name16) = "UTF-16-LE" := by
    show encodingOf (EncSpec.declared 0 (0 + 1 + 1) "-LE") (interleaveAll 0 1 name16) = _
    simp only [encodingOf, resolveDeclared, pySlice_interleaveAll]
    decide
  have hdec : codecDecode Codec.utf_16_le (utf16Bom false ++ utf16Encode false ((charsetQuoteCps ++ name16 ++ [0x22, 0x3B]) ++ rest)) = some (0xFEFF :: ((charsetQuoteCps ++ name16 ++ [0x22, 0x3B]) ++ rest)) := by
    show utf16Decode false _ = _
    exact utf16Decode_bom_encode false _ hvalt
  have htry : try_encoding (utf16Bom false ++ utf16Encode false ((charsetQuoteCps ++ name16 ++ [0x22, 0x3B]) ++ rest)) "UTF-16-LE" true
      = .ok (some ((charsetQuoteCps ++ name16 ++ [0x22, 0x3B]) ++ rest)) := by
    exact try_encoding_bom (by decide) hdec true
  have hpref : charsetQuoteCps.isPrefixOf ((charsetQuoteCps ++ name16 ++ [0x22, 0x3B]) ++ rest) = true := by
    rw [List.append_assoc, List.append_assoc]
    exact isPrefixOf_append_self _ _
  have hacc : acceptCond (EncSpec.declared 0 2 "-LE") ((charsetQuoteCps ++ name16 ++ [0x22, 0x3B]) ++ rest) = true := by
    simp [acceptCond, hasAtCharset, hpref, charsetQuoteCps]
  have hsniff : sniffOn ENCODING_MAGIC_NUMBERS (utf16Bom false ++ utf16Encode false ((charsetQuoteCps ++ name16 ++ [0x22, 0x3B]) ++ rest)) =
      .ok (some ((charsetQuoteCps ++ name16 ++ [0x22, 0x3B]) ++ rest)) := by
    unfold sniffOn
    rw [hfm]
    simp only [henc, htry, hacc]
    simp
  exact decode_sniff_some hsniff


theorem c5_case_f16le_nobom (rest : List Nat) (hval : ∀ c ∈ rest, IsScalar c) :
    decode (utf16Encode false ((charsetQuoteCps ++ name16 ++ [0x22, 0x3B]) ++ rest)) none none none = .ok (some ((charsetQuoteCps ++ name16 ++ [0x22, 0x3B]) ++ rest)) := by
  have hpascii : ∀ c ∈ charsetQuoteCps ++ name16 ++ [0x22, 0x3B], c < 0x80 := by decide
  have hvalt : ∀ c ∈ (charsetQuoteCps ++ name16 ++ [0x22, 0x3B]) ++ rest, IsScalar c := by
    intro c hc
    rcases List.mem_append.mp hc with h | h
    · have := hpascii c h
      exact ⟨by omega, by omega⟩
    · exact hval c h
  have hshape : utf16Encode false ((charsetQuoteCps ++ name16 ++ [0x22, 0x3B]) ++ rest) =
      [] ++ interleaveAll 0 1 charsetQuoteCps ++
      (interleaveAll 0 1 name16 ++ (terminator 0 1 ++ utf16Encode false rest)) := by
    rw [show utf16Encode false ((charsetQuoteCps ++ name16 ++ [0x22, 0x3B]) ++ rest) = utf16Encode false (charsetQuoteCps ++ name16 ++ [0x22, 0x3B]) ++ utf16Encode false rest from encodeWith_append _ _ _]
    rw [show utf16Encode false (charsetQuoteCps ++ name16 ++ [0x22, 0x3B]) = interleaveAll 0 1 (charsetQuoteCps ++ name16 ++ [0x22, 0x3B]) from by simpa using utf16Encode_ascii false _ hpascii]
    rw [interleaveAll_append, interleaveAll_append]
    simp [List.append_assoc, terminator]
  have hcons : utf16Encode false ((charsetQuoteCps ++ name16 ++ [0x22, 0x3B]) ++ rest) =
      0x40 :: 0x00 :: 0x63 :: 0x00 :: (interleaveAll 0 1 [0x68, 0x61, 0x72, 0x73, 0x65, 0x74, 0x20, 0x22] ++ (interleaveAll 0 1 name16 ++ (terminator 0 1 ++ utf16Encode false rest))) := by
    rw [hshape]; rfl
  have hfm : findMatchOn ENCODING_MAGIC_NUMBERS (utf16Encode false ((charsetQuoteCps ++ name16 ++ [0x22, 0x3B]) ++ rest)) =
      some (EncSpec.declared 0 2 "-LE", interleaveAll 0 1 name16) := by
    show findMatchOn (_ :: _ :: _ :: _ :: _ :: _ :: _ :: _) _ = _
    rw [findMatchOn_cons_none (by
      rw [hcons]
      simp [matchPattern, matchCharset, stripPre, interleaveAll, interleave,
        charsetQuoteCps])]
    rw [findMatchOn_cons_none (by
      rw [hcons]
      simp [matchPattern, List.isPrefixOf])]
    rw [findMatchOn_cons_none (by
      rw [hcons]
      simp [matchPattern, matchCharset, stripPre, interleaveAll, interleave,
        charsetQuoteCps])]
    rw [findMatchOn_cons_none (by
      rw [hcons]
      simp [matchPattern, matchCharset, stripPre, interleaveAll, interleave,
        charsetQuoteCps])]
    rw [findMatchOn_cons_none (by
      rw [hcons]
      simp [matchPattern, matchCharset, stripPre, interleaveAll, interleave,
        charsetQuoteCps])]
    rw [findMatchOn_cons_none (by
      rw [hcons]
      simp [matchPattern, matchCharset, stripPre, interleaveAll, interleave,
        charsetQuoteCps])]
    rw [findMatchOn_cons_some (by
      rw [hshape]
      exact matchCharset_encode [] 0 1 name16 _ (by decide))]
  have henc : encodingOf (EncSpec.declared 0 2 "-LE") (interleaveAll 0 1 name16) = "UTF-16-LE" := by
    show encodingOf (EncSpec.declared 0 (0 + 1 + 1) "-LE") (interleaveAll 0 1 name16) = _
    simp only [encodingOf, resolveDeclared, pySlice_interleaveAll]
    decide
  have hdec : codecDecode Codec.utf_16_le (utf16Encode false ((charsetQuoteCps ++ name16 ++ [0x22, 0x3B]) ++ rest)) = some ((charsetQuoteCps ++ name16 ++ [0x22, 0x3B]) ++ rest) := by
    show utf16Decode false _ = _
    exact utf16Decode_encode false _ hvalt
  have htry : try_encoding (utf16Encode false ((charsetQuoteCps ++ name16 ++ [0x22, 0x3B]) ++ rest)) "UTF-16-LE" true
      = .ok (some ((charsetQuoteCps ++ name16 ++ [0x22, 0x3B]) ++ rest)) := by
    apply try_encoding_some_of_head (by decide) hdec
    · simp [charsetQuoteCps]
    · simp [charsetQuoteCps]
  have hpref : charsetQuoteCps.isPrefixOf ((charsetQuoteCps ++ name16 ++ [0x22, 0x3B]) ++ rest) = true := by
    rw [List.append_assoc, List.append_assoc]
    exact isPrefixOf_append_self _ _
  have hacc : acceptCond (EncSpec.declared 0 2 "-LE") ((charsetQuoteCps ++ name16 ++ [0x22, 0x3B]) ++ rest) = true := by
    simp [acceptCond, hasAtCharset, hpref, charsetQuoteCps]
  have hsniff : sniffOn ENCODING_MAGIC_NUMBERS (utf16Encode false ((charsetQuoteCps ++ name16 ++ [0x22, 0x3B]) ++ rest)) =
      .ok (some ((charsetQuoteCps ++ name16 ++ [0x22, 0x3B]) ++ rest)) := by
    unfold sniffOn
    rw [hfm]
    simp only [henc, htry, hacc]
    simp
  exact decode_sniff_some hsniff


theorem c5_case_f32be_bom (rest : List Nat) (hval : ∀ c ∈ rest, IsScalar c) :
    decode (utf32Bom true ++ utf32Encode true ((charsetQuoteCps ++ name32 ++ [0x22, 0x3B]) ++ rest)) none none none = .ok (some ((charsetQuoteCps ++ name32 ++ [0x22, 0x3B]) ++ rest)) := by
  have hpascii : ∀ c ∈ charsetQuoteCps ++ name32 ++ [0x22, 0x3B], c < 0x80 := by decide
  have hvalt : ∀ c ∈ (charsetQuoteCps ++ name32 ++ [0x22, 0x3B]) ++ rest, IsScalar c := by
    intro c hc
    rcases List.mem_append.mp hc with h | h
    · have := hpascii c h
      exact ⟨by omega, by omega⟩
    · exact hval c h
  have hshape : utf32Bom true ++ utf32Encode true ((charsetQuoteCps ++ name32 ++ [0x22, 0x3B]) ++ rest) =
      [0x00, 0x00, 0xFE, 0xFF] ++ interleaveAll 3 0 charsetQuoteCps ++
      (interleaveAll 3 0 name32 ++ (terminator 3 0 ++ utf32Encode true rest)) := by
    rw [show utf32Encode true ((charsetQuoteCps ++ name32 ++ [0x22, 0x3B]) ++ rest) = utf32Encode true (charsetQuoteCps ++ name32 ++ [0x22, 0x3B]) ++ utf32Encode true rest from encodeWith_append _ _ _]
    rw [show utf32Encode true (charsetQuoteCps ++ name32 ++ [0x22, 0x3B]) = interleaveAll 3 0 (charsetQuoteCps ++ name32 ++ [0x22, 0x3B]) from by simpa using utf32Encode_ascii true _ hpascii]
    rw [interleaveAll_append, interleaveAll_append]
    simp [List.append_assoc, terminator, utf32Bom]
  have hcons : utf32Bom true ++ utf32Encode true ((charsetQuoteCps ++ name32 ++ [0x22, 0x3B]) ++ rest) =
      0x00 :: 0x00 :: 0xFE :: 0xFF :: (interleaveAll 3 0 charsetQuoteCps ++ (interleaveAll 3 0 name32 ++ (terminator 3 0 ++ utf32Encode true rest))) := by
    rw [hshape]; rfl
  have hfm : findMatchOn ENCODING_MAGIC_NUMBERS (utf32Bom true ++ utf32Encode true ((charsetQuoteCps ++ name32 ++ [0x22, 0x3B]) ++ rest)) =
      some (EncSpec.declared 3 4 "-BE", interleaveAll 3 0 name32) := by
    show findMatchOn (_ :: _ :: _ :: _ :: _ :: _ :: _ :: _ :: _) _ = _
    rw [findMatchOn_cons_none (by
      rw [hcons]
      simp [matchPattern, matchCharset, stripPre, interleaveAll, interleave,
        charsetQuoteCps])]
    rw [findMatchOn_cons_none (by
      rw [hcons]
      simp [matchPattern, List.isPrefixOf])]
    rw [findMatchOn_cons_none (by
      rw [hcons]
      simp [matchPattern, matchCharset, stripPre, interleaveAll, interleave,
        charsetQuoteCps])]
    rw [findMatchOn_cons_none (by
      rw [hcons]
      simp [matchPattern, matchCharset, stripPre, interleaveAll, interleave,
        charsetQuoteCps])]
    rw [findMatchOn_cons_none (by
      rw [hcons]
      simp [matchPattern, matchCharset, stripPre, interleaveAll, interleave,
        charsetQuoteCps])]
    rw [findMatchOn_cons_none (by
      rw [hcons]
      simp [matchPattern, matchCharset, stripPre, interleaveAll, interleave,
        charsetQuoteCps])]
    rw [findMatchOn_cons_none (by
      rw [hcons]
      simp [matchPattern, matchCharset, stripPre, interleaveAll, interleave,
        charsetQuoteCps])]
    rw [findMatchOn_cons_some (by
      rw [hshape]
      exact matchCharset_encode [0x00, 0x00, 0xFE, 0xFF] 3 0 name32 _ (by decide))]
  have henc : encodingOf (EncSpec.declared 3 4 "-BE") (interleaveAll 3 0 name32) = "UTF-32-BE" := by
    show encodingOf (EncSpec.declared 3 (3 + 0 + 1) "-BE") (interleaveAll 3 0 name32) = _
    simp only [encodingOf, resolveDeclared, pySlice_interleaveAll]
    decide
  have hdec : codecDecode Codec.utf_32_be (utf32Bom true ++ utf32Encode true ((charsetQuoteCps ++ name32 ++ [0x22, 0x3B]) ++ rest)) = some (0xFEFF :: ((charsetQuoteCps ++ name32 ++ [0x22, 0x3B]) ++ rest)) := by
    show utf32Decode true _ = _
    exact utf32Decode_bom_encode true _ hvalt
  have htry : try_encoding (utf32Bom true ++ utf32Encode true ((charsetQuoteCps ++ name32 ++ [0x22, 0x3B]) ++ rest)) "UTF-32-BE" true
      = .ok (some ((charsetQuoteCps ++ name32 ++ [0x22, 0x3B]) ++ rest)) := by
    exact try_encoding_bom (by decide) hdec true
  have hpref : charsetQuoteCps.isPrefixOf ((charsetQuoteCps ++ name32 ++ [0x22, 0x3B]) ++ rest) = true := by
    rw [List.append_assoc, List.append_assoc]
    exact isPrefixOf_append_self _ _
  have hacc : acceptCond (EncSpec.declared 3 4 "-BE") ((charsetQuoteCps ++ name32 ++ [0x22, 0x3B]) ++ rest) = true := by
    simp [acceptCond, hasAtCharset, hpref, charsetQuoteCps]
  have hsniff : sniffOn ENCODING_MAGIC_NUMBERS (utf32Bom true ++ utf32Encode true ((charsetQuoteCps ++ name32 ++ [0x22, 0x3B]) ++ rest)) =
      .ok (some ((charsetQuoteCps ++ name32 ++ [0x22, 0x3B]) ++ rest)) := by
    unfold sniffOn
    rw [hfm]
    simp only [henc, htry, hacc]
    simp
  exact decode_sniff_some hsniff


theorem c5_case_f32be_nobom (rest : List Nat) (hval : ∀ c ∈ rest, IsScalar c) :
    decode (utf32Encode true ((charsetQuoteCps ++ name32 ++ [0x22, 0x3B]) ++ rest)) none none none = .ok (some ((charsetQuoteCps ++ name32 ++ [0x22, 0x3B]) ++ rest)) := by
  have hpascii : ∀ c ∈ charsetQuoteCps ++ name32 ++ [0x22, 0x3B], c < 0x80 := by decide
  have hvalt : ∀ c ∈ (charsetQuoteCps ++ name32 ++ [0x22, 0x3B]) ++ rest, IsScalar c := by
    intro c hc
    rcases List.mem_append.mp hc with h | h
    · have := hpascii c h
      exact ⟨by omega, by omega⟩
    · exact hval c h
  have hshape : utf32Encode true ((charsetQuoteCps ++ name32 ++ [0x22, 0x3B]) ++ rest) =
      [] ++ interleaveAll 3 0 charsetQuoteCps ++
      (interleaveAll 3 0 name32 ++ (terminator 3 0 ++ utf32Encode true rest)) := by
    rw [show utf32Encode true ((charsetQuoteCps ++ name32 ++ [0x22, 0x3B]) ++ rest) = utf32Encode true (charsetQuoteCps ++ name32 ++ [0x22, 0x3B]) ++ utf32Encode true rest from encodeWith_append _ _ _]
    rw [show utf32Encode true (charsetQuoteCps ++ name32 ++ [0x22, 0x3B]) = interleaveAll 3 0 (charsetQuoteCps ++ name32 ++ [0x22, 0x3B]) from by simpa using utf32Encode_ascii true _ hpascii]
    rw [interleaveAll_append, interleaveAll_append]
    simp [List.append_assoc, terminator]
  have hcons : utf32Encode true ((charsetQuoteCps ++ name32 ++ [0x22, 0x3B]) ++ rest) =
      0x00 :: 0x00 :: 0x00 :: 0x40 :: (interleaveAll 3 0 [0x63, 0x68, 0x61, 0x72, 0x73, 0x65, 0x74, 0x20, 0x22] ++ (interleaveAll 3 0 name32 ++ (terminator 3 0 ++ utf32Encode true rest))) := by
    rw [hshape]; rfl
  have hfm : findMatchOn ENCODING_MAGIC_NUMBERS (utf32Encode true ((charsetQuoteCps ++ name32 ++ [0x22, 0x3B]) ++ rest)) =
      some (EncSpec.declared 3 4 "-BE", interleaveAll 3 0 name32) := by
    show findMatchOn (_ :: _ :: _ :: _ :: _ :: _ :: _ :: _ :: _ :: _) _ = _
    rw [findMatchOn_cons_none (by
      rw [hcons]
      simp [matchPattern, matchCharset, stripPre, interleaveAll, interleave,
        charsetQuoteCps])]
    rw [findMatchOn_cons_none (by
      rw [hcons]
      simp [matchPattern, List.isPrefixOf])]
    rw [findMatchOn_cons_none (by
      rw [hcons]
      simp [matchPattern, matchCharset, stripPre, interleaveAll, interleave,
        charsetQuoteCps])]
    rw [findMatchOn_cons_none (by
      rw [hcons]
      simp [matchPattern, matchCharset, stripPre, interleaveAll, interleave,
        charsetQuoteCps])]
    rw [findMatchOn_cons_none (by
      rw [hcons]
      simp [matchPattern, matchCharset, stripPre, interleaveAll, interleave,
        charsetQuoteCps])]
    rw [findMatchOn_cons_none (by
      rw [hcons]
      simp [matchPattern, matchCharset, stripPre, interleaveAll, interleave,
        charsetQuoteCps])]
    rw [findMatchOn_cons_none (by
      rw [hcons]
      simp [matchPattern, matchCharset, stripPre, interleaveAll, interleave,
        charsetQuoteCps])]
    rw [findMatchOn_cons_none (by
      rw [hcons]
      simp [matchPattern, matchCharset, stripPre, interleaveAll, interleave,
        charsetQuoteCps])]
    rw [findMatchOn_cons_some (by
      rw [hshape]
      exact matchCharset_encode [] 3 0 name32 _ (by decide))]
  have henc : encodingOf (EncSpec.declared 3 4 "-BE") (interleaveAll 3 0 name32) = "UTF-32-BE" := by
    show encodingOf (EncSpec.declared 3 (3 + 0 + 1) "-BE") (interleaveAll 3 0 name32) = _
    simp only [encodingOf, resolveDeclared, pySlice_interleaveAll]
    decide
  have hdec : codecDecode Codec.utf_32_be (utf32Encode true ((charsetQuoteCps ++ name32 ++ [0x22, 0x3B]) ++ rest)) = some ((charsetQuoteCps ++ name32 ++ [0x22, 0x3B]) ++ rest) := by
    show utf32Decode true _ = _
    exact utf32Decode_encode true _ hvalt
  have htry : try_encoding (utf32Encode true ((charsetQuoteCps ++ name32 ++ [0x22, 0x3B]) ++ rest)) "UTF-32-BE" true
      = .ok (some ((charsetQuoteCps ++ name32 ++ [0x22, 0x3B]) ++ rest)) := by
    apply try_encoding_some_of_head (by decide) hdec
    · simp [charsetQuoteCps]
    · simp [charsetQuoteCps]
  have hpref : charsetQuoteCps.isPrefixOf ((charsetQuoteCps ++ name32 ++ [0x22, 0x3B]) ++ rest) = true := by
    rw [List.append_assoc, List.append_assoc]
    exact isPrefixOf_append_self _ _
  have hacc : acceptCond (EncSpec.declared 3 4 "-BE") ((charsetQuoteCps ++ name32 ++ [0x22, 0x3B]) ++ rest) = true := by
    simp [acceptCond, hasAtCharset, hpref, charsetQuoteCps]
  have hsniff : sniffOn ENCODING_MAGIC_NUMBERS (utf32Encode true ((charsetQuoteCps ++ name32 ++ [0x22, 0x3B]) ++ rest)) =
      .ok (some ((charsetQuoteCps ++ name32 ++ [0x22, 0x3B]) ++ rest)) := by
    unfold sniffOn
    rw [hfm]
    simp only [henc, htry, hacc]
    simp
  exact decode_sniff_some hsniff


theorem c5_case_f32le_bom (rest : List Nat) (hval : ∀ c ∈ rest, IsScalar c) :
    decode (utf32Bom false ++ utf32Encode false ((charsetQuoteCps ++ name32 ++ [0x22, 0x3B]) ++ rest)) none none none = .ok (some ((charsetQuoteCps ++ name32 ++ [0x22, 0x3B]) ++ rest)) := by
  have hpascii : ∀ c ∈ charsetQuoteCps ++ name32 ++ [0x22, 0x3B], c < 0x80 := by decide
  have hvalt : ∀ c ∈ (charsetQuoteCps ++ name32 ++ [0x22, 0x3B]) ++ rest, IsScalar c := by
    intro c hc
    rcases List.mem_append.mp hc with h | h
    · have := hpascii c h
      exact ⟨by omega, by omega⟩
    · exact hval c h
  have hshape : utf32Bom false ++ utf32Encode false ((charsetQuoteCps ++ name32 ++ [0x22, 0x3B]) ++ rest) =
      [0xFF, 0xFE, 0x00, 0x00] ++ interleaveAll 0 3 charsetQuoteCps ++
      (interleaveAll 0 3 name32 ++ (terminator 0 3 ++ utf32Encode false rest)) := by
    rw [show utf32Encode false ((charsetQuoteCps ++ name32 ++ [0x22, 0x3B]) ++ rest) = utf32Encode false (charsetQuoteCps ++ name32 ++ [0x22, 0x3B]) ++ utf32Encode false rest from encodeWith_append _ _ _]
    rw [show utf32Encode false (charsetQuoteCps ++ name32 ++ [0x22, 0x3B]) = interleaveAll 0 3 (charsetQuoteCps ++ name32 ++ [0x22, 0x3B]) from by simpa using utf32Encode_ascii false _ hpascii]
    rw [interleaveAll_append, interleaveAll_append]
    simp [List.append_assoc, terminator, utf32Bom]
  have hcons : utf32Bom false ++ utf32Encode false ((charsetQuoteCps ++ name32 ++ [0x22, 0x3B]) ++ rest) =
      0xFF :: 0xFE :: 0x00 :: 0x00 :: (interleaveAll 0 3 charsetQuoteCps ++ (interleaveAll 0 3 name32 ++ (terminator 0 3 ++ utf32Encode false rest))) := by
    rw [hshape]; rfl
  have hfm : findMatchOn ENCODING_MAGIC_NUMBERS (utf32Bom false ++ utf32Encode false ((charsetQuoteCps ++ name32 ++ [0x22, 0x3B]) ++ rest)) =
      some (EncSpec.declared 0 4 "-LE", interleaveAll 0 3 name32) := by
    show findMatchOn (_ :: _ :: _ :: _ :: _ :: _ :: _ :: _ :: _ :: _ :: _) _ = _
    rw [findMatchOn_cons_none (by
      rw [hcons]
      simp [matchPattern, matchCharset, stripPre, interleaveAll, interleave,
        charsetQuoteCps])]
    rw [findMatchOn_cons_none (by
      rw [hcons]
      simp [matchPattern, List.isPrefixOf])]
    rw [findMatchOn_cons_none (by
      rw [hcons]
      simp [matchPattern, matchCharset, stripPre, interleaveAll, interleave,
        charsetQuoteCps])]
    rw [findMatchOn_cons_none (by
      rw [hcons]
      simp [matchPattern, matchCharset, stripPre, interleaveAll, interleave,
        charsetQuoteCps])]
    rw [findMatchOn_cons_none (by
      rw [hcons]
      simp [matchPattern, matchCharset, stripPre, interleaveAll, interleave,
        charsetQuoteCps])]
    rw [findMatchOn_cons_none (by
      rw [hcons]
      simp [matchPattern, matchCharset, stripPre, interleaveAll, interleave,
        charsetQuoteCps])]
    rw [findMatchOn_cons_none (by
      rw [hcons]
      simp [matchPattern, matchCharset, stripPre, interleaveAll, interleave,
        charsetQuoteCps])]
    rw [findMatchOn_cons_none (by
      rw [hcons]
      simp [matchPattern, matchCharset, stripPre, interleaveAll, interleave,
        charsetQuoteCps])]
    rw [findMatchOn_cons_none (by
      rw [hcons]
      simp [matchPattern, matchCharset, stripPre, interleaveAll, interleave,
        charsetQuoteCps])]
    rw [findMatchOn_cons_some (by
      rw [hshape]
      exact matchCharset_encode [0xFF, 0xFE, 0x00, 0x00] 0 3 name32 _ (by decide))]
  have henc : encodingOf (EncSpec.declared 0 4 "-LE") (interleaveAll 0 3 name32) = "UTF-32-LE" := by
    show encodingOf (EncSpec.declared 0 (0 + 3 + 1) "-LE") (interleaveAll 0 3 name32) = _
    simp only [encodingOf, resolveDeclared, pySlice_interleaveAll]
    decide
  have hdec : codecDecode Codec.utf_32_le (utf32Bom false ++ utf32Encode false ((charsetQuoteCps ++ name32 ++ [0x22, 0x3B]) ++ rest)) = some (0xFEFF :: ((charsetQuoteCps ++ name32 ++ [0x22, 0x3B]) ++ rest)) := by
    show utf32Decode false _ = _
    exact utf32Decode_bom_encode false _ hvalt
  have htry : try_encoding (utf32Bom false ++ utf32Encode false ((charsetQuoteCps ++ name32 ++ [0x22, 0x3B]) ++ rest)) "UTF-32-LE" true
      = .ok (some ((charsetQuoteCps ++ name32 ++ [0x22, 0x3B]) ++ rest)) := by
    exact try_encoding_bom (by decide) hdec true
  have hpref : charsetQuoteCps.isPrefixOf ((charsetQuoteCps ++ name32 ++ [0x22, 0x3B]) ++ rest) = true := by
    rw [List.append_assoc, List.append_assoc]
    exact isPrefixOf_append_self _ _
  have hacc : acceptCond (EncSpec.declared 0 4 "-LE") ((charsetQuoteCps ++ name32 ++ [0x22, 0x3B]) ++ rest) = true := by
    simp [acceptCond, hasAtCharset, hpref, charsetQuoteCps]
  have hsniff : sniffOn ENCODING_MAGIC_NUMBERS (utf32Bom false ++ utf32Encode false ((charsetQuoteCps ++ name32 ++ [0x22, 0x3B]) ++ rest)) =
      .ok (some ((charsetQuoteCps ++ name32 ++ [0x22, 0x3B]) ++ rest)) := by
    unfold sniffOn
    rw [hfm]
    simp only [henc, htry, hacc]
    simp
  exact decode_sniff_some hsniff


theorem c5_case_f32le_nobom (rest : List Nat) (hval : ∀ c ∈ rest, IsScalar c) :
    decode (utf32Encode false ((charsetQuoteCps ++ name32 ++ [0x22, 0x3B]) ++ rest)) none none none = .ok (some ((charsetQuoteCps ++ name32 ++ [0x22, 0x3B]) ++ rest)) := by
  have hpascii : ∀ c ∈ charsetQuoteCps ++ name32 ++ [0x22, 0x3B], c < 0x80 := by decide
  have hvalt : ∀ c ∈ (charsetQuoteCps ++ name32 ++ [0x22, 0x3B]) ++ rest, IsScalar c := by
    intro c hc
    rcases List.mem_append.mp hc with h | h
    · have := hpascii c h
      exact ⟨by omega, by omega⟩
    · exact hval c h
  have hshape : utf32Encode false ((charsetQuoteCps ++ name32 ++ [0x22, 0x3B]) ++ rest) =
      [] ++ interleaveAll 0 3 charsetQuoteCps ++
      (interleaveAll 0 3 name32 ++ (terminator 0 3 ++ utf32Encode false rest)) := by
    rw [show utf32Encode false ((charsetQuoteCps ++ name32 ++ [0x22, 0x3B]) ++ rest) = utf32Encode false (charsetQuoteCps ++ name32 ++ [0x22, 0x3B]) ++ utf32Encode false rest from encodeWith_append _ _ _]
    rw [show utf32Encode false (charsetQuoteCps ++ name32 ++ [0x22, 0x3B]) = interleaveAll 0 3 (charsetQuoteCps ++ name32 ++ [0x22, 0x3B]) from by simpa using utf32Encode_ascii false _ hpascii]
    rw [interleaveAll_append, interleaveAll_append]
    simp [List.append_assoc, terminator]
  have hcons : utf32Encode false ((charsetQuoteCps ++ name32 ++ [0x22, 0x3B]) ++ rest) =
      0x40 :: 0x00 :: 0x00 :: 0x00 :: (interleaveAll 0 3 [0x63, 0x68, 0x61, 0x72, 0x73, 0x65, 0x74, 0x20, 0x22] ++ (interleaveAll 0 3 name32 ++ (terminator 0 3 ++ utf32Encode false rest))) := by
    rw [hshape]; rfl
  have hfm : findMatchOn ENCODING_MAGIC_NUMBERS (utf32Encode false ((charsetQuoteCps ++ name32 ++ [0x22, 0x3B]) ++ rest)) =
      some (EncSpec.declared 0 4 "-LE", interleaveAll 0 3 name32) := by
    show findMatchOn (_ :: _ :: _ :: _ :: _ :: _ :: _ :: _ :: _ :: _ :: _ :: _) _ = _
    rw [findMatchOn_cons_none (by
      rw [hcons]
      simp [matchPattern, matchCharset, stripPre, interleaveAll, interleave,
        charsetQuoteCps])]
    rw [findMatchOn_cons_none (by
      rw [hcons]
      simp [matchPattern, List.isPrefixOf])]
    rw [findMatchOn_cons_none (by
      rw [hcons]
      simp [matchPattern, matchCharset, stripPre, interleaveAll, interleave,
        charsetQuoteCps])]
    rw [findMatchOn_cons_none (by
      rw [hcons]
      simp [matchPattern, matchCharset, stripPre, interleaveAll, interleave,
        charsetQuoteCps])]
    rw [findMatchOn_cons_none (by
      rw [hcons]
      simp [matchPattern, matchCharset, stripPre, interleaveAll, interleave,
        charsetQuoteCps])]
    rw [findMatchOn_cons_none (by
      rw [hcons]
      simp [matchPattern, matchCharset, stripPre, interleaveAll, interleave,
        charsetQuoteCps])]
    rw [findMatchOn_cons_none (by
      rw [hcons]
      simp [matchPattern, matchCharset, stripPre, interleaveAll, interleave,
        charsetQuoteCps])]
    rw [findMatchOn_cons_none (by
      rw [hcons]
      simp [matchPattern, matchCharset, stripPre, interleaveAll, interleave,
        charsetQuoteCps])]
    rw [findMatchOn_cons_none (by
      rw [hcons]
      simp [matchPattern, matchCharset, stripPre, interleaveAll, interleave,
        charsetQuoteCps])]
    rw [findMatchOn_cons_none (by
      rw [hcons]
      simp [matchPattern, matchCharset, stripPre, interleaveAll, interleave,
        charsetQuoteCps])]
    rw [findMatchOn_cons_some (by
      rw [hshape]
      exact matchCharset_encode [] 0 3 name32 _ (by decide))]
  have henc : encodingOf (EncSpec.declared 0 4 "-LE") (interleaveAll 0 3 name32) = "UTF-32-LE" := by
    show encodingOf (EncSpec.declared 0 (0 + 3 + 1) "-LE") (interleaveAll 0 3 name32) = _
    simp only [encodingOf, resolveDeclared, pySlice_interleaveAll]
    decide
  have hdec : codecDecode Codec.utf_32_le (utf32Encode false ((charsetQuoteCps ++ name32 ++ [0x22, 0x3B]) ++ rest)) = some ((charsetQuoteCps ++ name32 ++ [0x22, 0x3B]) ++ rest) := by
    show utf32Decode false _ = _
    exact utf32Decode_encode false _ hvalt
  have htry : try_encoding (utf32Encode false ((charsetQuoteCps ++ name32 ++ [0x22, 0x3B]) ++ rest)) "UTF-32-LE" true
      = .ok (some ((charsetQuoteCps ++ name32 ++ [0x22, 0x3B]) ++ rest)) := by
    apply try_encoding_some_of_head (by decide) hdec
    · simp [charsetQuoteCps]
    · simp [charsetQuoteCps]
  have hpref : charsetQuoteCps.isPrefixOf ((charsetQuoteCps ++ name32 ++ [0x22, 0x3B]) ++ rest) = true := by
    rw [List.append_assoc, List.append_assoc]
    exact isPrefixOf_append_self _ _
  have hacc : acceptCond (EncSpec.declared 0 4 "-LE") ((charsetQuoteCps ++ name32 ++ [0x22, 0x3B]) ++ rest) = true := by
    simp [acceptCond, hasAtCharset, hpref, charsetQuoteCps]
  have hsniff : sniffOn ENCODING_MAGIC_NUMBERS (utf32Encode false ((charsetQuoteCps ++ name32 ++ [0x22, 0x3B]) ++ rest)) =
      .ok (some ((charsetQuoteCps ++ name32 ++ [0x22, 0x3B]) ++ rest)) := by
    unfold sniffOn
    rw [hfm]
    simp only [henc, htry, hacc]
    simp
  exact decode_sniff_some hsniff

/-- C5: for every Unicode text that begins with a `@charset "E";` declaration
and every supported signature form (ASCII/UTF-8, UTF-16BE/LE, UTF-32BE/LE,
each with or without BOM) whose encoding agrees with the declared name `E`,
encoding the text to bytes in that form and then applying `decode` to those
bytes with no metadata encodings returns exactly the original text, apart
from any BOM. -/
theorem c5_roundtrip (f : SigForm) (rest : List Nat)
    (hval : ∀ c ∈ rest, IsScalar c) :
    decode (formEncode f (formDeclCps f ++ rest)) none none none =
      .ok (some (formDeclCps f ++ rest)) := by
  cases f with
  | f8 bom =>
    cases bom
    · exact c5_case_f8_nobom rest hval
    · exact c5_case_f8_bom rest hval
  | f16 be bom =>
    cases be
    · cases bom
      · exact c5_case_f16le_nobom rest hval
      · exact c5_case_f16le_bom rest hval
    · cases bom
      · exact c5_case_f16be_nobom rest hval
      · exact c5_case_f16be_bom rest hval
  | f32 be bom =>
    cases be
    · cases bom
      · exact c5_case_f32le_nobom rest hval
      · exact c5_case_f32le_bom rest hval
    · cases bom
      · exact c5_case_f32be_nobom rest hval
      · exact c5_case_f32be_bom rest hval

theorem codecDecode_nil (c : Codec) : codecDecode c [] = some [] := by
  cases c <;> rfl

theorem tryTruthy_empty_bytes (e : Option String) :
    tryTruthy [] e = .ok none ∨ tryTruthy [] e = .error .indexError := by
  match e with
  | none => exact Or.inl rfl
  | some s =>
    by_cases hs : s = ""
    · exact Or.inl (by simp [tryTruthy, hs])
    · simp only [tryTruthy, if_neg hs]
      match hl : lookupCodec s with
      | none => exact Or.inl (try_encoding_lookup_fail hl)
      | some c => exact Or.inr (try_encoding_empty hl (codecDecode_nil c) true)

/-- C10: on the empty byte string, every trial decode that succeeds produces
the empty text, whose out-of-guard first-character BOM check raises
`IndexError`; `decode` therefore raises `IndexError` for every metadata
combination instead of returning empty text or a decode error. -/
theorem c10_empty_input_index_error (pe le de : Option String) :
    decode [] pe le de = .error .indexError := by
  unfold decode
  rcases tryTruthy_empty_bytes pe with h | h
  · simp only [h]
    rw [show sniffOn ENCODING_MAGIC_NUMBERS [] = .ok none from rfl]
    unfold metaFallback
    rcases tryTruthy_empty_bytes le with h2 | h2
    · simp only [h2]
      rcases tryTruthy_empty_bytes de with h3 | h3
      · simp only [h3]
        exact try_encoding_empty (by decide) (codecDecode_nil Codec.utf_8) false
      · simp only [h3]
    · simp only [h2]
  · simp only [h]

theorem try_encoding_of_decode {bs : List Nat} {s : String} {c : Codec}
    {t : List Nat} (hl : lookupCodec s = some c)
    (hd : codecDecode c bs = some t) (hne : t ≠ []) (fb : Bool) :
    try_encoding bs s fb = .ok (some (bomStrip1 t)) := by
  unfold try_encoding pyDecode
  simp only [hl, hd]
  match t with
  | [] => exact absurd rfl hne
  | x :: r => rfl

/-- C1 (amended): a non-empty protocol encoding known to the decode
primitive, under which the bytes decode without error *to a non-empty text*,
makes `decode` return the protocol-decoded text (one leading BOM stripped)
immediately, regardless of the linking/document encodings and of the
signature table. -/
theorem c1_amended (bs : List Nat) (le de : Option String) (name : String)
    (c : Codec) (t : List Nat) (hname : name ≠ "")
    (hl : lookupCodec name = some c) (hd : codecDecode c bs = some t)
    (hne : t ≠ []) :
    decode bs (some name) le de = .ok (some (bomStrip1 t)) := by
  unfold decode
  simp only [tryTruthy, if_neg hname, try_encoding_of_decode hl hd hne]

/-- C1 counterexample: on the empty byte string the known protocol encoding
`utf8` decodes without error (to the empty text), yet `decode` raises
`IndexError` instead of returning the protocol-decoded text. -/
theorem c1_counterexample :
    lookupCodec "utf8" = some Codec.utf_8 ∧
    codecDecode Codec.utf_8 [] = some [] ∧
    decode [] (some "utf8") none none = .error .indexError ∧
    decode [] (some "utf8") none none ≠ .ok (some []) := by
  refine ⟨by decide, rfl, by decide, by decide⟩

/-- C1 witness: a concrete protocol-tier success. -/
theorem c1_amended_witness :
    decode [0x61] (some "utf8") none none = .ok (some [0x61]) :=
  c1_amended [0x61] none none "utf8" Codec.utf_8 [0x61]
    (by decide) (by decide) (by decide) (by decide)

/-- C6: for the UTF-16BE BOM followed by `@charset "UTF-16";` in UTF-16BE,
with no metadata encodings, the first matching table entry captures the
interleaved group, the name `UTF-16` is extracted from its odd bytes, its
normalization is `utf16` so `-BE` is appended, and the whole input decodes
as UTF-16-BE to text starting with `@charset "UTF-16";` and carrying no
BOM. -/
theorem c6_utf16be_bom_charset :
    findMatchOn ENCODING_MAGIC_NUMBERS
        ([0xFE, 0xFF] ++ utf16Encode true (charsetQuoteCps ++ name16 ++ [0x22, 0x3B]))
      = some (.declared 1 2 "-BE", interleaveAll 1 0 name16) ∧
    pySlice 1 2 (interleaveAll 1 0 name16) = name16 ∧
    asciiDecodeReplace name16 = "UTF-16" ∧
    stripDashUnderscore "UTF-16" = "utf16" ∧
    encodingOf (.declared 1 2 "-BE") (interleaveAll 1 0 name16) = "UTF-16-BE" ∧
    lookupCodec "UTF-16-BE" = some Codec.utf_16_be ∧
    decode ([0xFE, 0xFF] ++ utf16Encode true (charsetQuoteCps ++ name16 ++ [0x22, 0x3B]))
        none none none
      = .ok (some (charsetQuoteCps ++ name16 ++ [0x22, 0x3B])) ∧
    (charsetQuoteCps ++ name16 ++ [0x22, 0x3B]).head? = some 0x40 := by
  decide

theorem sniffOn_no_match {bs : List Nat}
    (h : findMatchOn ENCODING_MAGIC_NUMBERS bs = none) :
    sniffOn ENCODING_MAGIC_NUMBERS bs = .ok none := by
  unfold sniffOn
  rw [h]

/-- C7: input invalid as UTF-8, matching no signature, with no usable
protocol/linking/document encoding, makes `decode` raise the fallback tier's
strict UTF-8 decode error. -/
theorem c7_fallback_error (bs : List Nat) (pe le de : Option String)
    (hutf8 : utf8Decode bs = none)
    (hfm : findMatchOn ENCODING_MAGIC_NUMBERS bs = none)
    (hpe : tryTruthy bs pe = .ok none) (hle : tryTruthy bs le = .ok none)
    (hde : tryTruthy bs de = .ok none) :
    decode bs pe le de = .error .unicodeDecodeError := by
  unfold decode
  simp only [hpe]
  rw [sniffOn_no_match hfm]
  unfold metaFallback
  simp only [hle, hde]
  unfold try_encoding pyDecode
  rw [show lookupCodec "utf8" = some Codec.utf_8 from by decide]
  simp only [show codecDecode Codec.utf_8 bs = none from hutf8]
  rfl

/-- C7 witness: the single byte `0xFF`. -/
theorem c7_fallback_error_witness :
    decode [0xFF] none none none = .error .unicodeDecodeError :=
  c7_fallback_error [0xFF] none none none (by decide) (by decide) rfl rfl rfl

theorem isPrefixOf_cons_ne_nil {a : Nat} {p t : List Nat}
    (h : (a :: p).isPrefixOf t = true) : t ≠ [] := by
  intro ht
  rw [ht] at h
  simp [List.isPrefixOf] at h

/-- C2 (amended): at the sniffing tier, for an input whose first matching
entry is a declared (`@charset`-extracted) one, a successful trial decode is
returned exactly when the decoded BOM-stripped text begins with the literal
`@charset "`; for a fixed-name entry, a successful trial decode is returned
whenever its BOM-stripped text is non-empty (an empty text is falsy in the
acceptance test and silently falls through). -/
theorem c2_amended (bs : List Nat) (spec : EncSpec) (grp t : List Nat)
    (hfm : findMatchOn ENCODING_MAGIC_NUMBERS bs = some (spec, grp))
    (htry : try_encoding bs (encodingOf spec grp) true = .ok (some t)) :
    (hasAtCharset spec = true →
      (sniffOn ENCODING_MAGIC_NUMBERS bs = .ok (some t) ↔
        charsetQuoteCps.isPrefixOf t = true)) ∧
    (hasAtCharset spec = false → t ≠ [] →
      sniffOn ENCODING_MAGIC_NUMBERS bs = .ok (some t)) := by
  have hsniff : sniffOn ENCODING_MAGIC_NUMBERS bs =
      (if acceptCond spec t then .ok (some t) else .ok none) := by
    unfold sniffOn
    rw [hfm]
    simp only [htry]
  constructor
  · intro hd
    have hiff : acceptCond spec t = true ↔
        (t.isEmpty = false ∧ charsetQuoteCps.isPrefixOf t = true) := by
      simp [acceptCond, hd]
    constructor
    · intro hs
      rw [hsniff] at hs
      by_cases hacc : acceptCond spec t = true
      · exact (hiff.mp hacc).2
      · rw [if_neg (by simpa using hacc)] at hs
        cases hs
    · intro hp
      have hne : t ≠ [] := isPrefixOf_cons_ne_nil (p := _) (by
        rw [show charsetQuoteCps = 0x40 :: [0x63, 0x68, 0x61, 0x72, 0x73,
          0x65, 0x74, 0x20, 0x22] from rfl] at hp
        exact hp)
      rw [hsniff, if_pos (hiff.mpr ⟨by simpa using hne, hp⟩)]
  · intro hd hne
    rw [hsniff, if_pos (by simp [acceptCond, hd, hne])]

/-- C2 counterexample: for the bare UTF-16BE BOM, the first matching entry is
the fixed-name `UTF-16-BE` entry and its trial decode succeeds (with the
empty BOM-stripped text), yet the sniffing tier does not return it: `decode`
falls through and raises the fallback tier's UTF-8 error. -/
theorem c2_counterexample :
    findMatchOn ENCODING_MAGIC_NUMBERS [0xFE, 0xFF]
      = some (.fixed "UTF-16-BE", []) ∧
    encodingOf (.fixed "UTF-16-BE") [] = "UTF-16-BE" ∧
    try_encoding [0xFE, 0xFF] "UTF-16-BE" true = .ok (some []) ∧
    sniffOn ENCODING_MAGIC_NUMBERS [0xFE, 0xFF] = .ok none ∧
    decode [0xFE, 0xFF] none none none = .error .unicodeDecodeError := by
  decide

/-- C2 witness: a declared-entry success, at `@charset "utf-8";x` in ASCII. -/
theorem c2_amended_witness :
    sniffOn ENCODING_MAGIC_NUMBERS
        [0x40, 0x63, 0x68, 0x61, 0x72, 0x73, 0x65, 0x74, 0x20, 0x22,
         0x75, 0x74, 0x66, 0x2D, 0x38, 0x22, 0x3B, 0x78]
      = .ok (some [0x40, 0x63, 0x68, 0x61, 0x72, 0x73, 0x65, 0x74, 0x20, 0x22,
         0x75, 0x74, 0x66, 0x2D, 0x38, 0x22, 0x3B, 0x78]) :=
  ((c2_amended _ (.declared 0 1 "") [0x75, 0x74, 0x66, 0x2D, 0x38] _
    (by decide) (by decide)).1 rfl).mpr (by decide)

theorem try_encoding_ok_inv {bs : List Nat} {s : String} {fb : Bool}
    {t : List Nat} (h : try_encoding bs s fb = .ok (some t)) :
    ∃ c, lookupCodec s = some c ∧
      (codecDecode c bs = some t ∧ t.head? ≠ some 0xFEFF ∨
       codecDecode c bs = some (0xFEFF :: t)) := by
  unfold try_encoding pyDecode at h
  match hl : lookupCodec s with
  | none =>
    simp only [hl] at h
    by_cases hfb : fb = true <;> simp [hfb] at h
  | some c =>
    simp only [hl] at h
    refine ⟨c, rfl, ?_⟩
    match hd : codecDecode c bs with
    | none =>
      simp only [hd] at h
      by_cases hfb : fb = true <;> simp [hfb] at h
    | some [] =>
      simp only [hd] at h
      simp at h
    | some (x :: r) =>
      simp only [hd, Except.ok.injEq, Option.some.injEq] at h
      by_cases hx : x = 0xFEFF
      · rw [if_pos hx] at h
        right
        rw [hx, h]
      · rw [if_neg hx] at h
        left
        rw [← h]
        exact ⟨rfl, by simp [List.head?, hx]⟩

theorem try_encoding_ok_bom_inv {bs : List Nat} {s : String} {fb : Bool}
    {t : List Nat} (h : try_encoding bs s fb = .ok (some t))
    (hbom : t.head? = some 0xFEFF) :
    ∃ c, codecDecode c bs = some (0xFEFF :: t) := by
  obtain ⟨c, _, hor⟩ := try_encoding_ok_inv h
  rcases hor with ⟨_, hne⟩ | hb
  · exact absurd hbom hne
  · exact ⟨c, hb⟩

theorem tryTruthy_ok_inv {bs : List Nat} {e : Option String} {t : List Nat}
    (h : tryTruthy bs e = .ok (some t)) (hbom : t.head? = some 0xFEFF) :
    ∃ c, codecDecode c bs = some (0xFEFF :: t) := by
  match e with
  | none => simp [tryTruthy] at h
  | some s =>
    by_cases hs : s = ""
    · simp [tryTruthy, hs] at h
    · simp only [tryTruthy, if_neg hs] at h
      exact try_encoding_ok_bom_inv h hbom

theorem sniffOn_ok_inv {bs t : List Nat}
    (h : sniffOn ENCODING_MAGIC_NUMBERS bs = .ok (some t))
    (hbom : t.head? = some 0xFEFF) :
    ∃ c, codecDecode c bs = some (0xFEFF :: t) := by
  unfold sniffOn at h
  match hfm : findMatchOn ENCODING_MAGIC_NUMBERS bs with
  | none => simp only [hfm] at h; simp at h
  | some (spec, grp) =>
    simp only [hfm] at h
    match htr : try_encoding bs (encodingOf spec grp) true with
    | .error e => simp only [htr] at h; simp at h
    | .ok none => simp only [htr] at h; simp at h
    | .ok (some t2) =>
      simp only [htr] at h
      by_cases hacc : acceptCond spec t2 = true
      · rw [if_pos hacc] at h
        obtain rfl : t2 = t := by simpa using h
        exact try_encoding_ok_bom_inv htr hbom
      · rw [if_neg (by simpa using hacc)] at h
        simp at h

/-- C4 (amended): the returned text begins with `U+FEFF` only when the
successful trial decode's raw text began with two `U+FEFF` code points:
`decode` strips exactly one leading BOM from the decoded text. -/
theorem c4_amended (bs : List Nat) (pe le de : Option String) (t : List Nat)
    (hok : decode bs pe le de = .ok (some t))
    (hbom : t.head? = some 0xFEFF) :
    ∃ c, codecDecode c bs = some (0xFEFF :: t) := by
  unfold decode at hok
  match hpe : tryTruthy bs pe with
  | .error e => simp only [hpe] at hok; simp at hok
  | .ok (some t2) =>
    simp only [hpe] at hok
    obtain rfl : t2 = t := by simpa using hok
    exact tryTruthy_ok_inv hpe hbom
  | .ok none =>
    simp only [hpe] at hok
    match hsn : sniffOn ENCODING_MAGIC_NUMBERS bs with
    | .error e => simp only [hsn] at hok; simp at hok
    | .ok (some t2) =>
      simp only [hsn] at hok
      obtain rfl : t2 = t := by simpa using hok
      exact sniffOn_ok_inv hsn hbom
    | .ok none =>
      simp only [hsn] at hok
      unfold metaFallback at hok
      match hle : tryTruthy bs le with
      | .error e => simp only [hle] at hok; simp at hok
      | .ok (some t2) =>
        simp only [hle] at hok
        obtain rfl : t2 = t := by simpa using hok
        exact tryTruthy_ok_inv hle hbom
      | .ok none =>
        simp only [hle] at hok
        match hde : tryTruthy bs de with
        | .error e => simp only [hde] at hok; simp at hok
        | .ok (some t2) =>
          simp only [hde] at hok
          obtain rfl : t2 = t := by simpa using hok
          exact tryTruthy_ok_inv hde hbom
        | .ok none =>
          simp only [hde] at hok
          exact try_encoding_ok_bom_inv hok hbom

/-- C4 counterexample: a doubled UTF-8 BOM decodes to text that still begins
with `U+FEFF` — only one leading BOM is stripped. -/
theorem c4_counterexample :
    decode [0xEF, 0xBB, 0xBF, 0xEF, 0xBB, 0xBF] none none none
      = .ok (some [0xFEFF]) ∧
    ([0xFEFF] : List Nat).head? = some 0xFEFF := by
  decide

/-- C4 witness: the amended claim applied at the doubled-BOM input. -/
theorem c4_amended_witness :
    ∃ c, codecDecode c [0xEF, 0xBB, 0xBF, 0xEF, 0xBB, 0xBF]
      = some [0xFEFF, 0xFEFF] :=
  c4_amended [0xEF, 0xBB, 0xBF, 0xEF, 0xBB, 0xBF] none none none [0xFEFF]
    (by decide) (by decide)

theorem try_encoding_true_error {bs : List Nat} {s : String} {e : PyError}
    (h : try_encoding bs s true = .error e) : e = .indexError := by
  unfold try_encoding pyDecode at h
  match hl : lookupCodec s with
  | none => simp only [hl] at h; simp at h
  | some c =>
    simp only [hl] at h
    match hd : codecDecode c bs with
    | none => simp only [hd] at h; simp at h
    | some [] =>
      simp only [hd] at h
      simpa using h.symm
    | some (x :: r) => simp only [hd] at h; simp at h

theorem tryTruthy_error {bs : List Nat} {x : Option String} {e : PyError}
    (h : tryTruthy bs x = .error e) : e = .indexError := by
  match x with
  | none => simp [tryTruthy] at h
  | some s =>
    by_cases hs : s = ""
    · simp [tryTruthy, hs] at h
    · simp only [tryTruthy, if_neg hs] at h
      exact try_encoding_true_error h

theorem sniffOn_error {bs : List Nat} {e : PyError}
    (h : sniffOn ENCODING_MAGIC_NUMBERS bs = .error e) : e = .indexError := by
  unfold sniffOn at h
  match hfm : findMatchOn ENCODING_MAGIC_NUMBERS bs with
  | none => simp only [hfm] at h; simp at h
  | some (spec, grp) =>
    simp only [hfm] at h
    match htr : try_encoding bs (encodingOf spec grp) true with
    | .error e2 =>
      simp only [htr] at h
      obtain rfl : e2 = e := by simpa using h
      exact try_encoding_true_error htr
    | .ok none => simp only [htr] at h; simp at h
    | .ok (some t2) =>
      simp only [htr] at h
      by_cases hacc : acceptCond spec t2 = true
      · rw [if_pos hacc] at h; simp at h
      · rw [if_neg (by simpa using hacc)] at h; simp at h

theorem fallback_utf8_not_lookup {bs : List Nat} {e : PyError}
    (h : try_encoding bs "utf8" false = .error e) : e ≠ .lookupError := by
  unfold try_encoding pyDecode at h
  rw [show lookupCodec "utf8" = some Codec.utf_8 from by decide] at h
  match hd : codecDecode Codec.utf_8 bs with
  | none =>
    simp only [hd] at h
    obtain rfl : PyError.unicodeDecodeError = e := by simpa using h
    simp
  | some [] =>
    simp only [hd] at h
    obtain rfl : PyError.indexError = e := by simpa using h
    simp
  | some (x :: r) => simp only [hd] at h; simp at h

theorem decode_no_lookup_error (bs : List Nat) (pe le de : Option String) :
    decode bs pe le de ≠ .error .lookupError := by
  intro h
  unfold decode at h
  match hpe : tryTruthy bs pe with
  | .error e =>
    simp only [hpe] at h
    obtain rfl : e = PyError.lookupError := by simpa using h
    exact absurd (tryTruthy_error hpe) (by simp)
  | .ok (some t2) => simp only [hpe] at h; simp at h
  | .ok none =>
    simp only [hpe] at h
    match hsn : sniffOn ENCODING_MAGIC_NUMBERS bs with
    | .error e =>
      simp only [hsn] at h
      obtain rfl : e = PyError.lookupError := by simpa using h
      exact absurd (sniffOn_error hsn) (by simp)
    | .ok (some t2) => simp only [hsn] at h; simp at h
    | .ok none =>
      simp only [hsn] at h
      unfold metaFallback at h
      match hle : tryTruthy bs le with
      | .error e =>
        simp only [hle] at h
        obtain rfl : e = PyError.lookupError := by simpa using h
        exact absurd (tryTruthy_error hle) (by simp)
      | .ok (some t2) => simp only [hle] at h; simp at h
      | .ok none =>
        simp only [hle] at h
        match hde : tryTruthy bs de with
        | .error e =>
          simp only [hde] at h
          obtain rfl : e = PyError.lookupError := by simpa using h
          exact absurd (tryTruthy_error hde) (by simp)
        | .ok (some t2) => simp only [hde] at h; simp at h
        | .ok none =>
          simp only [hde] at h
          exact fallback_utf8_not_lookup h rfl

theorem tryTruthy_unknown {bs : List Nat} {s : String}
    (hs : lookupCodec s = none) : tryTruthy bs (some s) = .ok none := by
  simp only [tryTruthy]
  by_cases h : s = ""
  · simp [h]
  · rw [if_neg h]
    exact try_encoding_lookup_fail hs

/-- C8: an encoding name unknown to the decode primitive — supplied as
protocol, linking, or document metadata, or extracted from an `@charset`
declaration — only causes that candidate to be skipped, and an
unknown-encoding (`LookupError`) failure never reaches the caller: the
fallback tier always decodes with the known name `utf8`. -/
theorem c8_unknown_encoding (bs : List Nat) (pe le de : Option String)
    (s : String) (hs : lookupCodec s = none) :
    decode bs pe le de ≠ .error .lookupError ∧
    decode bs (some s) le de = decode bs none le de ∧
    decode bs pe (some s) de = decode bs pe none de ∧
    decode bs pe le (some s) = decode bs pe le none ∧
    (∀ start step endianness grp,
      findMatchOn ENCODING_MAGIC_NUMBERS bs
        = some (.declared start step endianness, grp) →
      lookupCodec (resolveDeclared start step endianness grp) = none →
      sniffOn ENCODING_MAGIC_NUMBERS bs = .ok none) := by
  refine ⟨decode_no_lookup_error bs pe le de, ?_, ?_, ?_, ?_⟩
  · unfold decode
    rw [tryTruthy_unknown hs]
    rfl
  · unfold decode metaFallback
    rw [tryTruthy_unknown hs]
    rfl
  · unfold decode metaFallback
    rw [tryTruthy_unknown hs]
    rfl
  · intro start step endianness grp hfm hlk
    unfold sniffOn
    rw [hfm]
    simp only [show encodingOf (.declared start step endianness) grp
      = resolveDeclared start step endianness grp from rfl]
    rw [try_encoding_lookup_fail hlk]

/-- C8 witness: an unknown name in the protocol slot is skipped. -/
theorem c8_unknown_encoding_witness :
    decode [0x61] (some "bogus") none none = decode [0x61] none none none ∧
    decode [0x61] none none none = .ok (some [0x61]) := by
  refine ⟨(c8_unknown_encoding [0x61] none none none "bogus" (by decide)).2.1, by decide⟩

theorem utf8Decode_ascii_id (bs : List Nat) (h : ∀ b ∈ bs, b < 0x80) :
    utf8Decode bs = some bs := by
  have hv : ∀ c ∈ bs, IsScalar c := by
    intro c hc
    have := h c hc
    exact ⟨by omega, by omega⟩
  have := utf8Decode_encode bs hv
  rwa [utf8Encode_ascii bs h] at this

theorem matchCharset_none_of_strip {bom : List Nat} {nb na : Nat}
    {bs : List Nat}
    (h : stripPre (bom ++ interleaveAll nb na charsetQuoteCps) bs = none) :
    matchCharset bom nb na bs = none := by
  unfold matchCharset
  rw [h]

theorem stripPre_ne_head {a b : Nat} (h : a ≠ b) (p l : List Nat) :
    stripPre (a :: p) (b :: l) = none := by
  simp [stripPre, h]

theorem matchPattern_literal_none {p bs : List Nat}
    (h : p.isPrefixOf bs = false) :
    matchPattern (.literalPat p) bs = none := by
  simp [matchPattern, h]

theorem matchPattern_charset_none {bom : List Nat} {nb na : Nat}
    {bs : List Nat}
    (h : stripPre (bom ++ interleaveAll nb na charsetQuoteCps) bs = none) :
    matchPattern (.charsetPat bom nb na) bs = none :=
  matchCharset_none_of_strip h

theorem findMatchOn_cons_none2 {bsz : Nat} {enc : EncSpec} {pat : Pattern}
    {es : List MagicEntry} {bs : List Nat} (h : matchPattern pat bs = none) :
    findMatchOn (⟨bsz, enc, pat⟩ :: es) bs = findMatchOn es bs := by
  simp [findMatchOn, h]

theorem isPrefixOf_ne_head {a b : Nat} (h : a ≠ b) (p l : List Nat) :
    (a :: p).isPrefixOf (b :: l) = false := by
  simp [List.isPrefixOf, h]

/-- C9 (amended): for a *non-empty* byte string of plain ASCII CSS (every
byte below `0x80` and nonzero) with no BOM and not starting with the
`@charset "` preamble, and no metadata encodings, `decode` matches no
signature-table entry, falls through all tiers, and returns the UTF-8 decode
of the bytes unchanged. -/
theorem c9_amended (bs : List Nat) (hne : bs ≠ [])
    (hascii : ∀ b ∈ bs, b < 0x80 ∧ b ≠ 0)
    (hnocs : ¬ ∃ r, bs = charsetQuoteCps ++ r) :
    decode bs none none none = .ok (some bs) := by
  match bs, hne with
  | b0 :: rest, _ =>
    obtain ⟨hb0lt, hb0ne⟩ := hascii b0 (by simp)
    have hzero : ∀ p : List Nat, stripPre (0x40 :: 0x00 :: p) (b0 :: rest) = none := by
      intro p
      by_cases h40 : b0 = 0x40
      · subst h40
        show (if (0x40 : Nat) = 0x40 then stripPre (0x00 :: p) rest else none) = none
        rw [if_pos rfl]
        match rest with
        | [] => rfl
        | b1 :: rest2 =>
          obtain ⟨_, hb1ne⟩ := hascii b1 (by simp)
          exact stripPre_ne_head (by omega) _ _
      · exact stripPre_ne_head (by omega) _ _
    have hfm : findMatchOn ENCODING_MAGIC_NUMBERS (b0 :: rest) = none := by
      simp only [ENCODING_MAGIC_NUMBERS]
      rw [findMatchOn_cons_none2
        (matchPattern_charset_none (stripPre_ne_head (by omega) _ _))]
      rw [findMatchOn_cons_none2
        (matchPattern_literal_none (isPrefixOf_ne_head (by omega) _ _))]
      rw [findMatchOn_cons_none2 (matchPattern_charset_none (by
        match h2 : stripPre ([] ++ interleaveAll 0 0 charsetQuoteCps) (b0 :: rest) with
        | none => rfl
        | some r =>
          have : b0 :: rest = charsetQuoteCps ++ r := stripPre_eq_some h2
          exact absurd ⟨r, this⟩ hnocs))]
      rw [findMatchOn_cons_none2
        (matchPattern_charset_none (stripPre_ne_head (by omega) _ _))]
      rw [findMatchOn_cons_none2
        (matchPattern_charset_none (stripPre_ne_head (by omega) _ _))]
      rw [findMatchOn_cons_none2
        (matchPattern_charset_none (stripPre_ne_head (by omega) _ _))]
      rw [findMatchOn_cons_none2 (matchPattern_charset_none (hzero _))]
      rw [findMatchOn_cons_none2
        (matchPattern_charset_none (stripPre_ne_head (by omega) _ _))]
      rw [findMatchOn_cons_none2
        (matchPattern_charset_none (stripPre_ne_head (by omega) _ _))]
      rw [findMatchOn_cons_none2
        (matchPattern_charset_none (stripPre_ne_head (by omega) _ _))]
      rw [findMatchOn_cons_none2 (matchPattern_charset_none (hzero _))]
      rw [findMatchOn_cons_none2
        (matchPattern_literal_none (isPrefixOf_ne_head (by omega) _ _))]
      rw [findMatchOn_cons_none2
        (matchPattern_literal_none (isPrefixOf_ne_head (by omega) _ _))]
      rw [findMatchOn_cons_none2
        (matchPattern_literal_none (isPrefixOf_ne_head (by omega) _ _))]
      rw [findMatchOn_cons_none2
        (matchPattern_literal_none (isPrefixOf_ne_head (by omega) _ _))]
      rfl
    have hdec : codecDecode Codec.utf_8 (b0 :: rest) = some (b0 :: rest) := by
      show utf8Decode _ = _
      exact utf8Decode_ascii_id _ (fun b hb => (hascii b hb).1)
    simp only [decode, tryTruthy]
    rw [sniffOn_no_match hfm]
    show metaFallback (b0 :: rest) none none = _
    simp only [metaFallback, tryTruthy]
    exact try_encoding_some_of_head (by decide) hdec (by simp)
      (by simp [List.head?]; omega) false

/-- C9 counterexample: the empty input is (vacuously) plain ASCII CSS with no
BOM and no `@charset` rule, yet `decode` raises `IndexError` instead of
returning its UTF-8 decode (the empty text). -/
theorem c9_counterexample :
    (∀ b ∈ ([] : List Nat), b < 0x80 ∧ b ≠ 0) ∧
    (¬ ∃ r, ([] : List Nat) = charsetQuoteCps ++ r) ∧
    decode [] none none none = .error .indexError ∧
    decode [] none none none ≠ .ok (some []) := by
  refine ⟨by simp, ?_, by decide, by decide⟩
  rintro ⟨r, hr⟩
  simp [charsetQuoteCps] at hr

/-- C9 witness: a concrete two-byte ASCII stylesheet. -/
theorem c9_amended_witness :
    decode [0x62, 0x7D] none none none = .ok (some [0x62, 0x7D]) :=
  c9_amended [0x62, 0x7D] (by decide) (by decide)
    (by rintro ⟨r, hr⟩; simp [charsetQuoteCps] at hr)

theorem findMatchOn_first (pre : List MagicEntry) (entry : MagicEntry)
    (post : List MagicEntry) (bs grp : List Nat)
    (hpre : ∀ e ∈ pre, matchPattern e.pattern bs = none)
    (hm : matchPattern entry.pattern bs = some grp) :
    findMatchOn (pre ++ entry :: post) bs = some (entry.encoding, grp) := by
  induction pre with
  | nil =>
    simp only [List.nil_append]
    exact findMatchOn_cons_some hm
  | cons e es ih =>
    rw [List.cons_append, findMatchOn_cons_none (hpre e (by simp))]
    exact ih (fun x hx => hpre x (by simp [hx]))

/-- C3: the sniffing tier tries at most one signature-table entry.  Entries
after the first match never influence the result, and when the single tried
candidate's decode fails or is rejected by the acceptance rule, `decode`
falls through to the linking/document/fallback computation without trying
any later table entry. -/
theorem c3_single_entry (bs : List Nat) (pe le de : Option String)
    (pre post post2 : List MagicEntry) (entry : MagicEntry) (grp : List Nat)
    (hpre : ∀ e ∈ pre, matchPattern e.pattern bs = none)
    (hm : matchPattern entry.pattern bs = some grp) :
    sniffOn (pre ++ entry :: post) bs = sniffOn (pre ++ entry :: post2) bs ∧
    (ENCODING_MAGIC_NUMBERS = pre ++ entry :: post →
     tryTruthy bs pe = .ok none →
     (try_encoding bs (encodingOf entry.encoding grp) true = .ok none ∨
      ∃ t, try_encoding bs (encodingOf entry.encoding grp) true = .ok (some t) ∧
        acceptCond entry.encoding t = false) →
     decode bs pe le de = metaFallback bs le de) := by
  constructor
  · unfold sniffOn
    rw [findMatchOn_first pre entry post bs grp hpre hm,
      findMatchOn_first pre entry post2 bs grp hpre hm]
  · intro hmag hpe hfail
    have hsn : sniffOn ENCODING_MAGIC_NUMBERS bs = .ok none := by
      rw [hmag]
      unfold sniffOn
      rw [findMatchOn_first pre entry post bs grp hpre hm]
      rcases hfail with h | ⟨t, h, hacc⟩
      · simp only [h]
      · simp only [h, hacc]
        rfl
    simp only [decode, hpe]
    rw [hsn]

/-- C3 witness: for the bare UTF-16BE BOM input, the matched entry's
candidate succeeds but is rejected (empty text), and `decode` equals the
sniff-skipping fall-through computation. -/
theorem c3_single_entry_witness :
    decode [0xFE, 0xFF] none none none = metaFallback [0xFE, 0xFF] none none :=
  (c3_single_entry [0xFE, 0xFF] none none none
    [ ⟨3, .declared 0 1 "", .charsetPat [0xEF, 0xBB, 0xBF] 0 0⟩,
      ⟨3, .fixed "UTF-8", .literalPat [0xEF, 0xBB, 0xBF]⟩,
      ⟨0, .declared 0 1 "", .charsetPat [] 0 0⟩,
      ⟨2, .declared 1 2 "-BE", .charsetPat [0xFE, 0xFF] 1 0⟩,
      ⟨0, .declared 1 2 "-BE", .charsetPat [] 1 0⟩,
      ⟨2, .declared 0 2 "-LE", .charsetPat [0xFF, 0xFE] 0 1⟩,
      ⟨0, .declared 0 2 "-LE", .charsetPat [] 0 1⟩,
      ⟨4, .declared 3 4 "-BE", .charsetPat [0x00, 0x00, 0xFE, 0xFF] 3 0⟩,
      ⟨0, .declared 3 4 "-BE", .charsetPat [] 3 0⟩,
      ⟨4, .declared 0 4 "-LE", .charsetPat [0xFF, 0xFE, 0x00, 0x00] 0 3⟩,
      ⟨0, .declared 0 4 "-LE", .charsetPat [] 0 3⟩,
      ⟨4, .fixed "UTF-32-BE", .literalPat [0x00, 0x00, 0xFE, 0xFF]⟩,
      ⟨4, .fixed "UTF-32-LE", .literalPat [0xFF, 0xFE, 0x00, 0x00]⟩ ]
    [⟨2, .fixed "UTF-16-LE", .literalPat [0xFF, 0xFE]⟩] []
    ⟨2, .fixed "UTF-16-BE", .literalPat [0xFE, 0xFF]⟩ []
    (by decide) (by decide)).2 rfl rfl
    (Or.inr ⟨[], by decide, by decide⟩)

/-- C5 witness: the UTF-16BE-with-BOM form at a concrete one-character
stylesheet body. -/
theorem c5_roundtrip_witness :
    decode (formEncode (.f16 true true) (formDeclCps (.f16 true true) ++ [0x78]))
        none none none
      = .ok (some (formDeclCps (.f16 true true) ++ [0x78])) :=
  c5_roundtrip (.f16 true true) [0x78] (by decide)
